import Mathlib

/-!
mdp2fic: navigation-subframe converter

A shallow embedding of `RC2.0/apps/MDPtools/mdp2fic.cpp` (class `MDP2FIC`) and the
properties of its ephemeris path, deduplication log, router, stream driver and summary
report.

Conventions of the embedding

* `std::map<K,V>` is a list of key/value pairs held in key order (`StdMap`); `find`,
  `insert`, `operator[]` assignment and mutation through an iterator are the four
  operations the converter uses.
* C++ integers (`short`, `int`, `long`) are `Int`; none of the properties depends on
  wrap-around.  The `unsigned long` fingerprint is converted to `long` both where it is
  stored and where it is looked up, so the key is carried as the `long` value.
* Library classes whose headers are not part of the sources are represented by the
  observations the converter makes of them.
-/

/-! ## `std::map` -/

/-- Ordered associative container: the pairs in iteration order. -/
abbrev StdMap (K V : Type) := List (K × V)

namespace StdMap

/-- Lookup `m.find(k)`; `none` stands for `m.end()`. -/
def find {K V : Type} [DecidableEq K] : StdMap K V → K → Option V
  | [], _ => none
  | (k', v') :: m, k => if k' = k then some v' else find m k

/-- Insertion `m.insert(make_pair(k, v))`: the pair is added at its place in key order
when the key is absent, and the container is left as it is when the key is present. -/
def insert {K V : Type} [LT K] [DecidableRel (fun a b : K => a < b)] [DecidableEq K] :
    StdMap K V → K → V → StdMap K V
  | [], k, v => [(k, v)]
  | (k', v') :: m, k, v =>
    if k < k' then (k, v) :: (k', v') :: m
    else if k' = k then (k', v') :: m
    else (k', v') :: insert m k v

/-- Assignment `m[k] = v`: overwrites the value of a present key, adds the pair
otherwise. -/
def set {K V : Type} [LT K] [DecidableRel (fun a b : K => a < b)] [DecidableEq K] :
    StdMap K V → K → V → StdMap K V
  | [], k, v => [(k, v)]
  | (k', v') :: m, k, v =>
    if k < k' then (k, v) :: (k', v') :: m
    else if k' = k then (k', v) :: m
    else (k', v') :: set m k v

/-- Mutation of the mapped value through the iterator returned by `find(k)`. -/
def modify {K V : Type} [DecidableEq K] : StdMap K V → K → (V → V) → StdMap K V
  | [], _, _ => []
  | (k', v') :: m, k, f => if k' = k then (k', f v') :: m else (k', v') :: modify m k f

/-- The keys in iteration order. -/
def keys {K V : Type} (m : StdMap K V) : List K := m.map Prod.fst

/-- The mapped values in iteration order. -/
def values {K V : Type} (m : StdMap K V) : List V := m.map Prod.snd

end StdMap

/-! ## Library types -/

/-- Modelled from the spec: `CommonTime.hpp` is not part of the sources.  A time point is
a whole number of seconds on the GPS time axis; only order, equality and the
week/second-of-week split are used. -/
abbrev CommonTime := Int

/-- Modelled from the spec: `GPSWeekSecond.hpp` is not part of the sources.  Seconds of
week of a time point (a week has 604800 seconds, the bound tested in
`processSubframes4and5`). -/
def GPSWeekSecond.sow (t : CommonTime) : Int := t % 604800

/-- Modelled from the spec: week number of a time point. -/
def GPSWeekSecond.week (t : CommonTime) : Int := t / 604800

/-- Modelled from the spec: `miscdefs.hpp` is not part of the sources.  The code type of
a Signal Key; the converter names only `rcCA`. -/
inductive RangeCode where
  | rcUnknown | rcCA | rcPcode | rcYcode | rcCodeless | rcCM | rcCL
  deriving DecidableEq, Repr

/-- Modelled from the spec: the carrier type of a Signal Key; the converter names only
`ccL1`. -/
inductive CarrierCode where
  | ccUnknown | ccL1 | ccL2
  deriving DecidableEq, Repr

/-- Modelled from the spec: the navigation code of a subframe record (`nav.nav`), handed
unchanged to the almanac store. -/
inductive NavCode where
  | ncUnknown | ncICD_200_2 | ncICD_700_M | ncICD_705_L5 | ncICD_200_4
  deriving DecidableEq, Repr

/-- Navigation Index `pair<pair<RangeCode, CarrierCode>, short>`. -/
structure NavIndex where
  range : RangeCode
  carrier : CarrierCode
  prn : Int
  deriving DecidableEq, Repr

/-- Lexicographic order of the nested pair, enumerators compared by position. -/
instance : LT NavIndex where
  lt a b :=
    a.range.toCtorIdx < b.range.toCtorIdx ∨
      (a.range = b.range ∧
        (a.carrier.toCtorIdx < b.carrier.toCtorIdx ∨
          (a.carrier = b.carrier ∧ a.prn < b.prn)))

instance : DecidableRel (fun a b : NavIndex => a < b) := fun a b =>
  inferInstanceAs (Decidable
    (a.range.toCtorIdx < b.range.toCtorIdx ∨
      (a.range = b.range ∧
        (a.carrier.toCtorIdx < b.carrier.toCtorIdx ∨
          (a.carrier = b.carrier ∧ a.prn < b.prn)))))

/-- Navigation subframe record `MDPNavSubframe` (header not part of the sources): the
members the converter reads, with the values of `getSFID()`, `getHOWTime()` and of
`EngNav::checkParity` on the ten words taken as given for the record. -/
structure MDPNavSubframe where
  prn : Int
  range : RangeCode
  carrier : CarrierCode
  nav : NavCode
  time : CommonTime
  subframe : List Nat
  sfid : Int
  howTime : Int
  parity : Bool
  deriving DecidableEq, Repr

/-- Ephemeris Page Set `std::map<short, MDPNavSubframe>`. -/
abbrev EphemerisPages := StdMap Int MDPNavSubframe

/-- Ephemeris record `EngEphemeris` (header not part of the sources): the observations
made of it by the converter and by `BELogEntry`: satellite id, transmit time, the HOW
time kept by the log entry and the fingerprint `BELogEntry::getKey()`. -/
structure EngEphemeris where
  PRNID : Int
  transmitTime : CommonTime
  HOW : CommonTime
  key : Int
  deriving DecidableEq, Repr

/-- Modelled from the spec: `BELogEntry.hpp` is not part of the sources.  An Ephemeris
Log Entry wraps one unique Ephemeris Record plus an occurrence counter. -/
structure BELogEntry where
  eph : EngEphemeris
  count : Nat
  deriving DecidableEq, Repr

/-- Modelled from the spec: constructor `BELogEntry(engEph)`; a new entry has
count = 1. -/
def BELogEntry.ofEph (e : EngEphemeris) : BELogEntry := ⟨e, 1⟩

/-- Modelled from the spec: fingerprint key of the wrapped record. -/
def BELogEntry.getKey (b : BELogEntry) : Int := b.eph.key

/-- Modelled from the spec: HOW time of the wrapped record. -/
def BELogEntry.getHOW (b : BELogEntry) : CommonTime := b.eph.HOW

/-- Modelled from the spec: `increment()` adds one to the occurrence counter. -/
def BELogEntry.increment (b : BELogEntry) : BELogEntry := { b with count := b.count + 1 }

/-- Ordered list of log entries of one satellite, `std::map<long, BELogEntry>`. -/
abbrev BELogMap := StdMap Int BELogEntry

/-- Per-satellite logs, `std::map<int, BELogMap>`. -/
abbrev PrnBELogMap := StdMap Int BELogMap

/-- Modelled from the spec: `UniqueAlmStore.hpp` is not part of the sources.  An Almanac
Store is represented by its constructor arguments and the subframes handed to
`newSubframe`, most recent last. -/
structure UniqueAlmStore where
  ni : NavIndex
  nav : NavCode
  pages : List MDPNavSubframe
  deriving DecidableEq, Repr

/-- Modelled from the spec: `newSubframe(nav)` takes the page into the store. -/
def UniqueAlmStore.newSubframe (u : UniqueAlmStore) (n : MDPNavSubframe) : UniqueAlmStore :=
  { u with pages := u.pages ++ [n] }

/-- Records handed to the output encoder `FICOutput`; the block layout is outside the
converter, so a record is its constructor arguments. -/
inductive FICData where
  | block109 (prn : Int) (sf1 sf2 sf3 : List Nat)
  | block9 (prn : Int) (sf1 sf2 sf3 : List Nat) (engEph : EngEphemeris)
  | almanac (uas : UniqueAlmStore)
  deriving DecidableEq, Repr

/-- What one extraction from the input stream `mdpInput` delivers. -/
inductive ReadEvent where
  | navRecord (nav : MDPNavSubframe)
  | obsRecord
  | otherRecord
  | fault
  deriving DecidableEq, Repr

/-- Result of the external decode step `makeEngEphemeris(engEph, pages)`: it returns
true and fills `engEph`, returns false, or raises. -/
inductive Decode where
  | built (engEph : EngEphemeris)
  | notBuilt
  | raised
  deriving DecidableEq, Repr

/-- The collaborators and library constants the converter is linked against. -/
structure Collaborators where
  makeEngEphemeris : EphemerisPages → Decode
  readyToWrite : UniqueAlmStore → Bool
  BEGINNING_OF_TIME : CommonTime
  END_OF_TIME : CommonTime

/-! ## The converter -/

/-- Data members of class `MDP2FIC`.  `FICOutput` and the log file are what has been
written to them, `mdpInput` is what is still to be read.  `processEphemerisCalls` is a
history variable (not a member): the ephemerides handed to `processEphemeris`, in call
order. -/
structure MDP2FIC where
  mdpInput : List ReadEvent
  FICOutput : List FICData
  obsCount : Int
  ephData : StdMap NavIndex MDPNavSubframe
  ephPageStore : StdMap NavIndex EphemerisPages
  prnBEmap : PrnBELogMap
  almData : StdMap NavIndex UniqueAlmStore
  logActive : Bool
  currentPRN : Int
  debugCount : Int
  numSubframesCollected : Int
  paritySuccessCount : Int
  parityFailCount : Int
  firstNavSF : Bool
  earliestTime : CommonTime
  latestTime : CommonTime
  firstObs : Bool
  timeToDie : Bool
  processEphemerisCalls : List EngEphemeris
  deriving DecidableEq, Repr

/-- How a member function ends: it returns, or an exception leaves it; either way with
the members as they are at that point. -/
inductive Outcome where
  | returned (s : MDP2FIC)
  | raised (s : MDP2FIC)
  deriving DecidableEq, Repr

/-- The members when the function ended. -/
def Outcome.state : Outcome → MDP2FIC
  | .returned s => s
  | .raised s => s

/-- State after `MDP2FIC::initialize`: counters zero, `firstNavSF` set, the containers
empty; `mdp` is the content of the input file and `log` tells whether a log file was
opened. -/
def MDP2FIC.initialize (x : Collaborators) (mdp : List ReadEvent) (log : Bool) : MDP2FIC :=
  { mdpInput := mdp
    FICOutput := []
    obsCount := 0
    ephData := []
    ephPageStore := []
    prnBEmap := []
    almData := []
    logActive := log
    currentPRN := 0
    debugCount := 0
    numSubframesCollected := 0
    paritySuccessCount := 0
    parityFailCount := 0
    firstNavSF := true
    earliestTime := x.BEGINNING_OF_TIME
    latestTime := x.END_OF_TIME
    firstObs := true
    timeToDie := false
    processEphemerisCalls := [] }

/-- Words of the page stored under `id`; the converter dereferences `ephPages.find(id)`
unchecked, the empty word list stands for a missing page. -/
def pageWords (ephPages : EphemerisPages) (id : Int) : List Nat :=
  match StdMap.find ephPages id with
  | some p => p.subframe
  | none => []

/-- The two blocks written for one emitted ephemeris (`new109`, `new9`). -/
def emission (engEph : EngEphemeris) (ephPages : EphemerisPages) : List FICData :=
  [ FICData.block109 engEph.PRNID (pageWords ephPages 1) (pageWords ephPages 2)
      (pageWords ephPages 3),
    FICData.block9 engEph.PRNID (pageWords ephPages 1) (pageWords ephPages 2)
      (pageWords ephPages 3) engEph ]

/-- Deduplication log, `MDP2FIC::processEphemeris`. -/
def MDP2FIC.processEphemeris (s : MDP2FIC) (engEph : EngEphemeris)
    (ephPages : EphemerisPages) : MDP2FIC :=
  let curBELog := BELogEntry.ofEph engEph
  let key := curBELog.getKey
  let s := { s with processEphemerisCalls := s.processEphemerisCalls ++ [engEph] }
  match StdMap.find s.prnBEmap engEph.PRNID with
  | none =>
    { s with
      prnBEmap := StdMap.insert s.prnBEmap engEph.PRNID (StdMap.insert [] key curBELog)
      FICOutput := s.FICOutput ++ emission engEph ephPages }
  | some blmr =>
    match StdMap.find blmr key with
    | none =>
      { s with
        prnBEmap := StdMap.modify s.prnBEmap engEph.PRNID
          (fun blm => StdMap.insert blm key curBELog)
        FICOutput := s.FICOutput ++ emission engEph ephPages }
    | some _ =>
      { s with
        prnBEmap := StdMap.modify s.prnBEmap engEph.PRNID
          (fun blm => StdMap.modify blm key BELogEntry.increment) }

/-- Ephemeris assembler, `MDP2FIC::processSubframes1to3`. -/
def MDP2FIC.processSubframes1to3 (x : Collaborators) (s : MDP2FIC) (nav : MDPNavSubframe) :
    Outcome :=
  if nav.range ≠ RangeCode.rcCA ∨ nav.carrier ≠ CarrierCode.ccL1 then Outcome.returned s
  else
    let ni : NavIndex := ⟨nav.range, nav.carrier, nav.prn⟩
    let s1 := { s with
      ephData := StdMap.set s.ephData ni nav
      numSubframesCollected := s.numSubframesCollected + 1 }
    if nav.parity then
      let pages : EphemerisPages :=
        StdMap.set ((StdMap.find s1.ephPageStore ni).getD []) nav.sfid nav
      let s2 := { s1 with
        paritySuccessCount := s1.paritySuccessCount + 1
        ephPageStore := StdMap.set s1.ephPageStore ni pages }
      match x.makeEngEphemeris pages with
      | Decode.built engEph =>
        let s3 := { s2 with
          currentPRN := engEph.PRNID
          earliestTime := if s2.firstNavSF then engEph.transmitTime else s2.earliestTime
          firstNavSF := false
          latestTime := engEph.transmitTime }
        Outcome.returned (s3.processEphemeris engEph pages)
      | Decode.notBuilt => Outcome.returned s2
      | Decode.raised => Outcome.raised s2
    else Outcome.returned { s1 with parityFailCount := s1.parityFailCount + 1 }

/-- Almanac path, `MDP2FIC::processSubframes4and5`.  The lookup that follows the
insertion of a new store finds the pair just inserted, so the `exit(1)` guard behind it
is not represented. -/
def MDP2FIC.processSubframes4and5 (x : Collaborators) (s : MDP2FIC) (nav : MDPNavSubframe) :
    MDP2FIC :=
  if nav.range ≠ RangeCode.rcCA ∨ nav.carrier ≠ CarrierCode.ccL1 then s
  else if nav.howTime > 604800 then s
  else
    let ni : NavIndex := ⟨nav.range, nav.carrier, nav.prn⟩
    let almData1 : StdMap NavIndex UniqueAlmStore :=
      match StdMap.find s.almData ni with
      | none => StdMap.insert s.almData ni ⟨ni, nav.nav, []⟩
      | some _ => s.almData
    let almData2 := StdMap.modify almData1 ni (fun uas => uas.newSubframe nav)
    match StdMap.find almData2 ni with
    | none => { s with almData := almData2 }
    | some uas =>
      if x.readyToWrite uas then
        { s with almData := almData2, FICOutput := s.FICOutput ++ [FICData.almanac uas] }
      else { s with almData := almData2 }

/-- Subframe router, `MDP2FIC::process(MDPNavSubframe&)`. -/
def MDP2FIC.process_nav (x : Collaborators) (s : MDP2FIC) (nav : MDPNavSubframe) : Outcome :=
  if nav.sfid > 3 then Outcome.returned (s.processSubframes4and5 x nav)
  else s.processSubframes1to3 x nav

/-- Stream driver step, `MDP2FIC::process()`.  Extraction from an exhausted or faulty
stream raises (the stream has `failbit` exceptions enabled); each of the three handlers
sets `timeToDie`.  After a step that raised nothing, `timeToDie = !mdpInput` is false
because the extraction succeeded. -/
def MDP2FIC.process (x : Collaborators) (s : MDP2FIC) : MDP2FIC :=
  match s.mdpInput with
  | [] => { s with timeToDie := true }
  | ReadEvent.fault :: rest => { s with mdpInput := rest, timeToDie := true }
  | ReadEvent.navRecord nav :: rest =>
    match MDP2FIC.process_nav x { s with mdpInput := rest } nav with
    | Outcome.returned s1 => { s1 with timeToDie := false }
    | Outcome.raised s1 => { s1 with timeToDie := true }
  | ReadEvent.obsRecord :: rest =>
    { s with mdpInput := rest, obsCount := s.obsCount + 1, timeToDie := false }
  | ReadEvent.otherRecord :: rest => { s with mdpInput := rest, timeToDie := false }

/-- Consecutive calls of `process(MDPNavSubframe&)` for the subframes of a stream, in
arrival order; the run ends at the first call that raises. -/
def MDP2FIC.feed (x : Collaborators) : MDP2FIC → List MDPNavSubframe → MDP2FIC
  | s, [] => s
  | s, nav :: rest =>
    match MDP2FIC.process_nav x s nav with
    | Outcome.returned s1 => MDP2FIC.feed x s1 rest
    | Outcome.raised s1 => s1

/-- Consecutive calls of `processEphemeris`, in order. -/
def MDP2FIC.recordAll (s : MDP2FIC) (es : List (EngEphemeris × EphemerisPages)) : MDP2FIC :=
  es.foldl (fun t ep => t.processEphemeris ep.1 ep.2) s

/-- The map `reorder` built in `writeLogFile`: the entries of one satellite inserted
under their HOW seconds of week.  The key is a `double` in the source; it is a second
of week, and only its order and equality are used. -/
def reorder (blm : BELogMap) : StdMap Int BELogEntry :=
  blm.foldl (fun r bp => StdMap.insert r (GPSWeekSecond.sow bp.2.getHOW) bp.2) []

/-- Rows written for one satellite: the entries of `reorder` in iteration order. -/
def reportRows (blm : BELogMap) : List BELogEntry := StdMap.values (reorder blm)

/-- Summary block of one satellite in the log file. -/
structure PrnSummary where
  prnID : Int
  numEntries : Nat
  rows : List BELogEntry
  deriving DecidableEq, Repr

/-- Content of the log file; the percentage line is a rendering of the two counters
above it and is not kept. -/
structure LogFile where
  earliestTime : CommonTime
  latestTime : CommonTime
  numSubframesCollected : Int
  paritySuccessCount : Int
  parityFailCount : Int
  summaries : List PrnSummary
  deriving DecidableEq, Repr

/-- Summary report, `MDP2FIC::writeLogFile`; `none` when no log file is active. -/
def MDP2FIC.writeLogFile (s : MDP2FIC) : Option LogFile :=
  if s.logActive then
    some
      { earliestTime := s.earliestTime
        latestTime := s.latestTime
        numSubframesCollected := s.numSubframesCollected
        paritySuccessCount := s.paritySuccessCount
        parityFailCount := s.parityFailCount
        summaries := s.prnBEmap.map
          (fun pp => { prnID := pp.1, numEntries := pp.2.length, rows := reportRows pp.2 }) }
  else none

/-! ## Vocabulary of the properties -/

/-- Satellite and fingerprint of an ephemeris. -/
def EngEphemeris.pair (e : EngEphemeris) : Int × Int := (e.PRNID, e.key)

/-- The entry logged for a fingerprint of a satellite, if any. -/
def MDP2FIC.entry (s : MDP2FIC) (prn key : Int) : Option BELogEntry :=
  match StdMap.find s.prnBEmap prn with
  | none => none
  | some blm => StdMap.find blm key

/-- Whether the fingerprint is present in the log of the satellite. -/
def MDP2FIC.inLog (s : MDP2FIC) (prn key : Int) : Bool := (s.entry prn key).isSome

/-- Satellite and fingerprint of every ephemeris emitted to the output encoder, one per
`block9` record, in output order. -/
def emitted : List FICData → List (Int × Int)
  | [] => []
  | FICData.block9 _ _ _ _ e :: out => e.pair :: emitted out
  | _ :: out => emitted out

/-- Number of entries the log of a satellite holds for a fingerprint. -/
def MDP2FIC.entriesFor (s : MDP2FIC) (prn key : Int) : Nat :=
  match StdMap.find s.prnBEmap prn with
  | none => 0
  | some blm => (StdMap.keys blm).count key

/-- Number of logs the converter holds for a satellite. -/
def MDP2FIC.logsFor (s : MDP2FIC) (prn : Int) : Nat := (StdMap.keys s.prnBEmap).count prn

/-- Satellites and fingerprints held by the log, in storage order. -/
def MDP2FIC.logShape (s : MDP2FIC) : List (Int × List Int) :=
  s.prnBEmap.map (fun pp => (pp.1, StdMap.keys pp.2))

/-- All of slots 1, 2 and 3 of a page set are populated. -/
def populated (p : EphemerisPages) : Bool :=
  (StdMap.find p 1).isSome && (StdMap.find p 2).isSome && (StdMap.find p 3).isSome

/-! ## Sample data -/

/-- A decode step that builds an ephemeris exactly from a complete page set: satellite and
times are read off page 1 and the fingerprint is that of one fixed orbital epoch. -/
def sampleDecode (p : EphemerisPages) : Decode :=
  if populated p then
    match StdMap.find p 1 with
    | some pg => Decode.built ⟨pg.prn, pg.howTime, pg.howTime, 77⟩
    | none => Decode.notBuilt
  else Decode.notBuilt

/-- Collaborators with the decode step `sampleDecode` and an almanac store that never
reports ready. -/
def sampleCollab : Collaborators :=
  { makeEngEphemeris := sampleDecode
    readyToWrite := fun _ => false
    BEGINNING_OF_TIME := 0
    END_OF_TIME := 4000000000 }

/-- Collaborators whose decode step raises. -/
def raisingCollab : Collaborators :=
  { sampleCollab with makeEngEphemeris := fun _ => Decode.raised }

/-- An L1 C/A subframe of satellite 5 with the given identifier, HOW time and parity
result. -/
def sampleNav (sfid howTime : Int) (parity : Bool) : MDPNavSubframe :=
  { prn := 5
    range := RangeCode.rcCA
    carrier := CarrierCode.ccL1
    nav := NavCode.ncICD_200_2
    time := howTime
    subframe := [1, 2, 3, 4, 5, 6, 7, 8, 9, 10]
    sfid := sfid
    howTime := howTime
    parity := parity }

/-- An ephemeris of satellite 5 with transmit time `t` and fingerprint `key`. -/
def sampleEph (t key : Int) : EngEphemeris := ⟨5, t, t, key⟩

/-- All of the identifiers 1, 2, 3 are among `seen`. -/
def complete (seen : List Int) : Bool :=
  decide (1 ∈ seen) && decide (2 ∈ seen) && decide (3 ∈ seen)

/-- Number of arrivals, among the identifiers `ids` arriving in this order after the
identifiers `seen`, at which all of 1, 2, 3 have been seen. -/
def triggers : List Int → List Int → Nat
  | _, [] => 0
  | seen, id :: ids => (if complete (id :: seen) then 1 else 0) + triggers (id :: seen) ids

/-- The thirty-subframe stream 1, 2, 3, 1, 2, 3, ... of satellite 5, HOW times six
seconds apart. -/
def cyclicStream : List MDPNavSubframe :=
  (List.range 30).map (fun i => sampleNav (Int.ofNat (i % 3) + 1) (6 * Int.ofNat i) true)

/-- The thirty-subframe stream of ten subframes 1, then ten subframes 2, then ten
subframes 3 of satellite 5. -/
def groupedStream : List MDPNavSubframe :=
  (List.range 30).map (fun i => sampleNav (Int.ofNat (i / 10) + 1) (6 * Int.ofNat i) true)

/-- The page set held for a Navigation Index; empty when there is none. -/
def MDP2FIC.pagesOf (s : MDP2FIC) (ni : NavIndex) : EphemerisPages :=
  (StdMap.find s.ephPageStore ni).getD []

/-- A parity-valid L1 C/A subframe of satellite `prn`. -/
def ValidL1CA (prn : Int) (n : MDPNavSubframe) : Prop :=
  n.parity = true ∧ n.range = RangeCode.rcCA ∧ n.carrier = CarrierCode.ccL1 ∧ n.prn = prn

/-- Every page of the page set is one of the subframes `navs`. -/
def pagesFrom (navs : List MDPNavSubframe) (p : EphemerisPages) : Prop :=
  ∀ j pg, StdMap.find p j = some pg → pg ∈ navs

/-- Assumption on the external decode step, for page sets made of the subframes `navs`:
it succeeds exactly when slots 1, 2 and 3 are populated, every ephemeris it builds
satisfies `G`, and on an incomplete page set it returns false. -/
def DecodesWhenComplete (x : Collaborators) (navs : List MDPNavSubframe)
    (G : EngEphemeris → Prop) : Prop :=
  ∀ p, pagesFrom navs p →
    (populated p = true → ∃ e, x.makeEngEphemeris p = Decode.built e ∧ G e) ∧
    (populated p = false → x.makeEngEphemeris p = Decode.notBuilt)

/-- What the deduplication log reads and writes: the logs, the output and the call
history. -/
def MDP2FIC.logView (s : MDP2FIC) : PrnBELogMap × List FICData × List EngEphemeris :=
  (s.prnBEmap, s.FICOutput, s.processEphemerisCalls)

instance (prn : Int) (n : MDPNavSubframe) : Decidable (ValidL1CA prn n) :=
  inferInstanceAs (Decidable
    (n.parity = true ∧ n.range = RangeCode.rcCA ∧ n.carrier = CarrierCode.ccL1 ∧ n.prn = prn))

/-- Relation kept by the converter between `firstNavSF`, the two recorded times and the
ephemerides decoded so far: before the first decode the flag is set; afterwards
`earliestTime` is the transmit time of the first and `latestTime` that of the last
decoded ephemeris. -/
def MDP2FIC.TimesTrackCalls (s : MDP2FIC) : Prop :=
  (s.firstNavSF = true ∧ s.processEphemerisCalls = []) ∨
    (s.firstNavSF = false ∧
      s.processEphemerisCalls.head?.map (fun e => e.transmitTime) = some s.earliestTime ∧
      s.processEphemerisCalls.getLast?.map (fun e => e.transmitTime) = some s.latestTime)

/-- The member `process()` called `n` times in a row.  The loop of the framework calls
it while `timeToDie` is not set, so every state the loop visits is one of these. -/
def MDP2FIC.steps (x : Collaborators) : Nat → MDP2FIC → MDP2FIC
  | 0, s => s
  | n + 1, s => MDP2FIC.steps x n (s.process x)

/-- The subframes counted are the parity successes plus the parity failures. -/
def MDP2FIC.CountersBalance (s : MDP2FIC) : Prop :=
  s.numSubframesCollected = s.paritySuccessCount + s.parityFailCount

/-! ## Container lemmas -/

namespace StdMap

section order
variable {K V : Type} [LT K] [DecidableRel (fun a b : K => a < b)] [DecidableEq K]

theorem find_insert_absent (m : StdMap K V) (k : K) (v : V) (h : find m k = none) :
    find (insert m k v) k = some v := by
  induction m with
  | nil => simp [insert, find]
  | cons a m ih =>
    obtain ⟨k', v'⟩ := a
    by_cases hk : k' = k
    · simp [find, hk] at h
    · simp only [find, hk, if_false] at h
      simp only [insert]
      split_ifs <;> simp [find, hk, ih h]

theorem find_insert_ne (m : StdMap K V) (k j : K) (v : V) (h : k ≠ j) :
    find (insert m k v) j = find m j := by
  induction m with
  | nil => simp [insert, find, h]
  | cons a m ih =>
    obtain ⟨k', v'⟩ := a
    simp only [insert]
    split_ifs <;> simp [find, h, ih]

theorem find_set_self (m : StdMap K V) (k : K) (v : V) : find (set m k v) k = some v := by
  induction m with
  | nil => simp [set, find]
  | cons a m ih =>
    obtain ⟨k', v'⟩ := a
    simp only [set]
    split_ifs with h1 h2
    · simp [find]
    · simp [find, h2]
    · simp [find, h2, ih]

theorem find_set_ne (m : StdMap K V) (k j : K) (v : V) (h : k ≠ j) :
    find (set m k v) j = find m j := by
  induction m with
  | nil => simp [set, find, h]
  | cons a m ih =>
    obtain ⟨k', v'⟩ := a
    simp only [set]
    split_ifs with h1 h2
    · simp [find, h]
    · subst h2; simp [find, h]
    · simp [find, ih]

end order

section plain
variable {K V : Type} [DecidableEq K]

theorem find_modify_self (m : StdMap K V) (k : K) (f : V → V) :
    find (modify m k f) k = (find m k).map f := by
  induction m with
  | nil => simp [modify, find]
  | cons a m ih =>
    obtain ⟨k', v'⟩ := a
    simp only [modify]
    split_ifs with h <;> simp [find, h, ih]

theorem find_modify_ne (m : StdMap K V) (k j : K) (f : V → V) (h : k ≠ j) :
    find (modify m k f) j = find m j := by
  induction m with
  | nil => simp [modify, find]
  | cons a m ih =>
    obtain ⟨k', v'⟩ := a
    simp only [modify]
    split_ifs with h1
    · subst h1; simp [find, h]
    · simp [find, ih]

theorem keys_modify (m : StdMap K V) (k : K) (f : V → V) : keys (modify m k f) = keys m := by
  induction m with
  | nil => simp [modify, keys]
  | cons a m ih =>
    obtain ⟨k', v'⟩ := a
    simp only [modify]
    split_ifs with h
    · simp [keys]
    · simpa [keys] using ih

theorem find_eq_none_iff (m : StdMap K V) (k : K) : find m k = none ↔ k ∉ keys m := by
  induction m with
  | nil => simp [find, keys]
  | cons a m ih =>
    obtain ⟨k', v'⟩ := a
    by_cases h : k' = k
    · simp [find, keys, h]
    · have h2 : ¬ k = k' := fun e => h e.symm
      simpa [find, keys, h, h2] using ih

end plain

section order2
variable {K V : Type} [LT K] [DecidableRel (fun a b : K => a < b)] [DecidableEq K]

theorem keys_insert_perm (m : StdMap K V) (k : K) (v : V) (h : find m k = none) :
    (keys (insert m k v)).Perm (k :: keys m) := by
  induction m with
  | nil => simp [insert, keys]
  | cons a m ih =>
    obtain ⟨k', v'⟩ := a
    by_cases hk : k' = k
    · simp [find, hk] at h
    · simp only [find, hk, if_false] at h
      have ih2 := ih h
      simp only [keys] at ih2 ⊢
      simp only [insert]
      split_ifs with h1
      · simp
      · simp only [List.map_cons]
        exact (List.Perm.cons k' ih2).trans (List.Perm.swap k k' _)

theorem count_keys_insert (m : StdMap K V) (k j : K) (v : V) (h : find m k = none) :
    (keys (insert m k v)).count j = (keys m).count j + (if k = j then 1 else 0) := by
  rw [(keys_insert_perm m k v h).count_eq, List.count_cons]
  simp

end order2

end StdMap

/-! ## Deduplication log -/

namespace MDP2FIC

theorem prnBEmap_processEphemeris (s : MDP2FIC) (e : EngEphemeris) (p : EphemerisPages) :
    (s.processEphemeris e p).prnBEmap =
      match StdMap.find s.prnBEmap e.PRNID with
      | none => StdMap.insert s.prnBEmap e.PRNID (StdMap.insert [] e.key (BELogEntry.ofEph e))
      | some blmr =>
        match StdMap.find blmr e.key with
        | none =>
          StdMap.modify s.prnBEmap e.PRNID
            (fun blm => StdMap.insert blm e.key (BELogEntry.ofEph e))
        | some _ =>
          StdMap.modify s.prnBEmap e.PRNID
            (fun blm => StdMap.modify blm e.key BELogEntry.increment) := by
  unfold MDP2FIC.processEphemeris
  simp only [BELogEntry.getKey, BELogEntry.ofEph]
  cases h1 : StdMap.find s.prnBEmap e.PRNID with
  | none => rfl
  | some blmr =>
    dsimp only
    cases h2 : StdMap.find blmr e.key <;> rfl

theorem entry_processEphemeris (s : MDP2FIC) (e : EngEphemeris) (p : EphemerisPages)
    (prn key : Int) :
    (s.processEphemeris e p).entry prn key =
      if (prn, key) = e.pair then
        (match s.entry prn key with
          | none => some (BELogEntry.ofEph e)
          | some b => some b.increment)
      else s.entry prn key := by
  unfold MDP2FIC.entry EngEphemeris.pair
  rw [prnBEmap_processEphemeris]
  simp only [Prod.mk.injEq]
  by_cases hp : prn = e.PRNID
  · subst hp
    cases h1 : StdMap.find s.prnBEmap e.PRNID with
    | none =>
      simp only [StdMap.find_insert_absent _ _ _ h1, true_and]
      by_cases hk : key = e.key
      · subst hk; simp [StdMap.insert, StdMap.find]
      · have hk2 : ¬ e.key = key := fun h => hk h.symm
        simp [StdMap.insert, StdMap.find, hk, hk2]
    | some blmr =>
      dsimp only
      cases h2 : StdMap.find blmr e.key with
      | none =>
        simp only [StdMap.find_modify_self, h1, Option.map_some', true_and]
        by_cases hk : key = e.key
        · subst hk; simp [StdMap.find_insert_absent _ _ _ h2, h2]
        · have hk2 : ¬ e.key = key := fun h => hk h.symm
          simp [StdMap.find_insert_ne _ _ _ _ hk2, hk]
      | some b =>
        simp only [StdMap.find_modify_self, h1, Option.map_some', true_and]
        by_cases hk : key = e.key
        · subst hk; simp [StdMap.find_modify_self, h2]
        · have hk2 : ¬ e.key = key := fun h => hk h.symm
          simp [StdMap.find_modify_ne _ _ _ _ hk2, hk]
  · have hp2 : ¬ e.PRNID = prn := fun h => hp h.symm
    cases h1 : StdMap.find s.prnBEmap e.PRNID with
    | none => simp [StdMap.find_insert_ne _ _ _ _ hp2, hp]
    | some blmr =>
      dsimp only
      cases h2 : StdMap.find blmr e.key <;>
        simp [StdMap.find_modify_ne _ _ _ _ hp2, hp]

theorem FICOutput_processEphemeris (s : MDP2FIC) (e : EngEphemeris) (p : EphemerisPages) :
    (s.processEphemeris e p).FICOutput =
      if s.inLog e.PRNID e.key then s.FICOutput else s.FICOutput ++ emission e p := by
  unfold MDP2FIC.processEphemeris MDP2FIC.inLog MDP2FIC.entry
  simp only [BELogEntry.getKey, BELogEntry.ofEph]
  cases h1 : StdMap.find s.prnBEmap e.PRNID with
  | none => simp
  | some blmr =>
    dsimp only
    cases h2 : StdMap.find blmr e.key <;> simp

theorem inLog_processEphemeris (s : MDP2FIC) (e : EngEphemeris) (p : EphemerisPages)
    (prn key : Int) :
    (s.processEphemeris e p).inLog prn key =
      (s.inLog prn key || decide ((prn, key) = e.pair)) := by
  unfold MDP2FIC.inLog
  rw [entry_processEphemeris]
  by_cases h : (prn, key) = e.pair
  · cases h2 : s.entry prn key <;> simp [h]
  · simp [h]

theorem inLog_recordAll (s : MDP2FIC) (es : List (EngEphemeris × EphemerisPages))
    (prn key : Int) :
    (s.recordAll es).inLog prn key =
      (s.inLog prn key || decide ((prn, key) ∈ es.map (fun ep => ep.1.pair))) := by
  induction es generalizing s with
  | nil => simp [MDP2FIC.recordAll]
  | cons ep es ih =>
    have h : s.recordAll (ep :: es) = (s.processEphemeris ep.1 ep.2).recordAll es := rfl
    rw [h, ih, inLog_processEphemeris]
    by_cases h1 : (prn, key) = ep.1.pair
    · simp [h1]
    · have h2 : ((prn, key) == ep.1.pair) = false := beq_eq_false_iff_ne.mpr h1
      simp [h1, h2]

/-- Occurrence count logged for a fingerprint of a satellite, 0 when there is no entry. -/
theorem count_entry_processEphemeris (s : MDP2FIC) (e : EngEphemeris) (p : EphemerisPages)
    (prn key : Int) :
    (((s.processEphemeris e p).entry prn key).elim 0 BELogEntry.count) =
      ((s.entry prn key).elim 0 BELogEntry.count) + (if (prn, key) = e.pair then 1 else 0) := by
  rw [entry_processEphemeris]
  by_cases h : (prn, key) = e.pair
  · cases h2 : s.entry prn key <;> simp [h, BELogEntry.ofEph, BELogEntry.increment]
  · simp [h]

theorem count_entry_recordAll (s : MDP2FIC) (es : List (EngEphemeris × EphemerisPages))
    (prn key : Int) :
    (((s.recordAll es).entry prn key).elim 0 BELogEntry.count) =
      ((s.entry prn key).elim 0 BELogEntry.count) +
        (es.map (fun ep => ep.1.pair)).count (prn, key) := by
  induction es generalizing s with
  | nil => simp [MDP2FIC.recordAll]
  | cons ep es ih =>
    have h : s.recordAll (ep :: es) = (s.processEphemeris ep.1 ep.2).recordAll es := rfl
    rw [h, ih, count_entry_processEphemeris, List.map_cons, List.count_cons]
    by_cases h1 : (prn, key) = ep.1.pair
    · have h2 : (ep.1.pair == (prn, key)) = true := by simp [h1]
      simp [h1, h2]; omega
    · have h2 : (ep.1.pair == (prn, key)) = false := beq_eq_false_iff_ne.mpr (fun h => h1 h.symm)
      simp [h1, h2]

theorem entriesFor_processEphemeris (s : MDP2FIC) (e : EngEphemeris) (p : EphemerisPages)
    (prn key : Int) :
    (s.processEphemeris e p).entriesFor prn key =
      s.entriesFor prn key +
        (if (prn, key) = e.pair ∧ s.inLog prn key = false then 1 else 0) := by
  unfold MDP2FIC.entriesFor MDP2FIC.inLog MDP2FIC.entry EngEphemeris.pair
  rw [prnBEmap_processEphemeris]
  simp only [Prod.mk.injEq]
  by_cases hp : prn = e.PRNID
  · subst hp
    cases h1 : StdMap.find s.prnBEmap e.PRNID with
    | none =>
      simp only [StdMap.find_insert_absent _ _ _ h1]
      by_cases hk : key = e.key
      · subst hk; simp [StdMap.insert, StdMap.keys]
      · have hk2 : ¬ e.key = key := fun h => hk h.symm
        simp [StdMap.insert, StdMap.keys, hk, hk2]
    | some blmr =>
      dsimp only
      cases h2 : StdMap.find blmr e.key with
      | none =>
        simp only [StdMap.find_modify_self, h1, Option.map_some']
        rw [StdMap.count_keys_insert _ _ _ _ h2]
        by_cases hk : key = e.key
        · subst hk; simp [h2]
        · have hk2 : ¬ e.key = key := fun h => hk h.symm
          simp [hk, hk2]
      | some b =>
        simp only [StdMap.find_modify_self, h1, Option.map_some', StdMap.keys_modify]
        by_cases hk : key = e.key
        · subst hk; simp [h2]
        · simp [hk]
  · have hp2 : ¬ e.PRNID = prn := fun h => hp h.symm
    cases h1 : StdMap.find s.prnBEmap e.PRNID with
    | none => simp [StdMap.find_insert_ne _ _ _ _ hp2, hp]
    | some blmr =>
      dsimp only
      cases h2 : StdMap.find blmr e.key <;>
        simp [StdMap.find_modify_ne _ _ _ _ hp2, hp]

theorem entriesFor_recordAll (s : MDP2FIC) (es : List (EngEphemeris × EphemerisPages))
    (prn key : Int) :
    (s.recordAll es).entriesFor prn key =
      s.entriesFor prn key +
        (if (prn, key) ∈ es.map (fun ep => ep.1.pair) ∧ s.inLog prn key = false
          then 1 else 0) := by
  induction es generalizing s with
  | nil => simp [MDP2FIC.recordAll]
  | cons ep es ih =>
    have h : s.recordAll (ep :: es) = (s.processEphemeris ep.1 ep.2).recordAll es := rfl
    rw [h, ih, entriesFor_processEphemeris, inLog_processEphemeris]
    by_cases h1 : (prn, key) = ep.1.pair
    · simp [h1]
    · have h3 : decide ((prn, key) = ep.1.pair) = false := decide_eq_false h1
      have e1 : (prn, key) ∈ ep.1.pair :: es.map (fun ep => ep.1.pair) ↔
          (prn, key) ∈ es.map (fun ep => ep.1.pair) := by
        rw [List.mem_cons]; exact or_iff_right h1
      simp only [h3, Bool.or_false, e1, List.map_cons]
      simp [h1]

theorem emitted_append (a b : List FICData) : emitted (a ++ b) = emitted a ++ emitted b := by
  induction a with
  | nil => rfl
  | cons r a ih => cases r <;> simp [emitted, ih]

theorem emitted_emission (e : EngEphemeris) (p : EphemerisPages) :
    emitted (emission e p) = [e.pair] := rfl

theorem emitted_recordAll (s : MDP2FIC) (es : List (EngEphemeris × EphemerisPages))
    (prn key : Int) :
    (emitted (s.recordAll es).FICOutput).count (prn, key) =
      (emitted s.FICOutput).count (prn, key) +
        (if (prn, key) ∈ es.map (fun ep => ep.1.pair) ∧ s.inLog prn key = false
          then 1 else 0) := by
  induction es generalizing s with
  | nil => simp [MDP2FIC.recordAll]
  | cons ep es ih =>
    have h : s.recordAll (ep :: es) = (s.processEphemeris ep.1 ep.2).recordAll es := rfl
    rw [h, ih, FICOutput_processEphemeris, inLog_processEphemeris]
    by_cases h1 : (prn, key) = ep.1.pair
    · obtain ⟨h4, h5⟩ : prn = ep.1.PRNID ∧ key = ep.1.key := by
        simpa [EngEphemeris.pair] using h1
      subst h4; subst h5
      cases h6 : s.inLog ep.1.PRNID ep.1.key <;>
        simp [h6, emitted_append, emitted_emission, EngEphemeris.pair]
    · have h3 : decide ((prn, key) = ep.1.pair) = false := decide_eq_false h1
      have h7 : ¬ ep.1.pair = (prn, key) := fun h => h1 h.symm
      have e1 : (prn, key) ∈ ep.1.pair :: es.map (fun ep => ep.1.pair) ↔
          (prn, key) ∈ es.map (fun ep => ep.1.pair) := by
        rw [List.mem_cons]; exact or_iff_right h1
      have e2 : (emitted (if s.inLog ep.1.PRNID ep.1.key = true then s.FICOutput
          else s.FICOutput ++ emission ep.1 ep.2)).count (prn, key) =
          (emitted s.FICOutput).count (prn, key) := by
        have h8 : (ep.1.pair == (prn, key)) = false := beq_eq_false_iff_ne.mpr h7
        cases h6 : s.inLog ep.1.PRNID ep.1.key <;>
          simp [emitted_append, emitted_emission, List.count_cons, h8]
      simp only [h3, Bool.or_false, e1, e2, List.map_cons]

theorem logsFor_processEphemeris (s : MDP2FIC) (e : EngEphemeris) (p : EphemerisPages)
    (prn : Int) :
    (s.processEphemeris e p).logsFor prn =
      s.logsFor prn + (if e.PRNID = prn ∧ s.logsFor prn = 0 then 1 else 0) := by
  unfold MDP2FIC.logsFor
  rw [prnBEmap_processEphemeris]
  cases h1 : StdMap.find s.prnBEmap e.PRNID with
  | none =>
    dsimp only
    rw [StdMap.count_keys_insert _ _ _ _ h1]
    by_cases hp : e.PRNID = prn
    · subst hp
      have := (StdMap.find_eq_none_iff _ _).mp h1
      simp [List.count_eq_zero_of_not_mem this]
    · simp [hp]
  | some blmr =>
    dsimp only
    have h3 : e.PRNID ∈ StdMap.keys s.prnBEmap := by
      by_contra hc
      rw [(StdMap.find_eq_none_iff _ _).mpr hc] at h1
      exact Option.noConfusion h1
    have h4 : ¬ (e.PRNID = prn ∧ List.count prn (StdMap.keys s.prnBEmap) = 0) := by
      rintro ⟨h5, h6⟩
      subst h5
      exact (List.count_pos_iff.mpr h3).ne' h6
    cases h2 : StdMap.find blmr e.key <;> simp [StdMap.keys_modify, h4]

theorem logsFor_recordAll (s : MDP2FIC) (es : List (EngEphemeris × EphemerisPages))
    (prn : Int) :
    (s.recordAll es).logsFor prn =
      s.logsFor prn +
        (if prn ∈ es.map (fun ep => ep.1.PRNID) ∧ s.logsFor prn = 0 then 1 else 0) := by
  induction es generalizing s with
  | nil => simp [MDP2FIC.recordAll]
  | cons ep es ih =>
    have h : s.recordAll (ep :: es) = (s.processEphemeris ep.1 ep.2).recordAll es := rfl
    rw [h, ih, logsFor_processEphemeris]
    by_cases h1 : ep.1.PRNID = prn
    · by_cases h2 : s.logsFor prn = 0 <;> simp [h1, h2]
    · have h3 : ¬ prn = ep.1.PRNID := fun h => h1 h.symm
      have e1 : prn ∈ ep.1.PRNID :: es.map (fun ep => ep.1.PRNID) ↔
          prn ∈ es.map (fun ep => ep.1.PRNID) := by
        rw [List.mem_cons]; exact or_iff_right h3
      have e2 : (if ep.1.PRNID = prn ∧ s.logsFor prn = 0 then 1 else 0) = 0 := by
        rw [if_neg]; exact fun h => h1 h.1
      simp only [e1, e2, List.map_cons, add_zero]

theorem logShape_modify (m : PrnBELogMap) (prn : Int) (g : BELogMap → BELogMap)
    (hg : ∀ blm, StdMap.keys (g blm) = StdMap.keys blm) :
    (StdMap.modify m prn g).map (fun pp => (pp.1, StdMap.keys pp.2)) =
      m.map (fun pp => (pp.1, StdMap.keys pp.2)) := by
  induction m with
  | nil => rfl
  | cons a m ih =>
    obtain ⟨k, v⟩ := a
    simp only [StdMap.modify]
    split_ifs with h
    · simp [hg]
    · simp [ih]

theorem logShape_processEphemeris_repeat (s : MDP2FIC) (e : EngEphemeris)
    (p : EphemerisPages) (h : s.inLog e.PRNID e.key = true) :
    (s.processEphemeris e p).logShape = s.logShape := by
  unfold MDP2FIC.logShape
  rw [prnBEmap_processEphemeris]
  unfold MDP2FIC.inLog MDP2FIC.entry at h
  cases h1 : StdMap.find s.prnBEmap e.PRNID with
  | none => simp [h1] at h
  | some blmr =>
    dsimp only
    rw [h1] at h
    dsimp only at h
    cases h2 : StdMap.find blmr e.key with
    | none => simp [h2] at h
    | some b =>
      dsimp only
      exact logShape_modify _ _ _ (fun blm => StdMap.keys_modify _ _ _)

end MDP2FIC

/-! ## Claims on the deduplication log -/

/-- C1: from the empty log, after any sequence `pre` of recorded ephemerides, recording
`e` appends its two blocks to the output exactly when its fingerprint is not in the log of
its satellite, which is the case exactly when the pair (satellite, fingerprint) does not
occur in `pre`; over any whole sequence `es` every pair that occurs is emitted exactly
once and no other pair is emitted. -/
theorem processEphemeris_emits_once (x : Collaborators) (mdp : List ReadEvent) (log : Bool)
    (pre es : List (EngEphemeris × EphemerisPages)) (e : EngEphemeris) (p : EphemerisPages)
    (prn key : Int) :
    ((( MDP2FIC.initialize x mdp log).recordAll pre).processEphemeris e p).FICOutput =
        (if (( MDP2FIC.initialize x mdp log).recordAll pre).inLog e.PRNID e.key
          then (( MDP2FIC.initialize x mdp log).recordAll pre).FICOutput
          else (( MDP2FIC.initialize x mdp log).recordAll pre).FICOutput ++ emission e p) ∧
      emitted (emission e p) = [e.pair] ∧
      (( MDP2FIC.initialize x mdp log).recordAll pre).inLog e.PRNID e.key =
        decide (e.pair ∈ pre.map (fun ep => ep.1.pair)) ∧
      (emitted (( MDP2FIC.initialize x mdp log).recordAll es).FICOutput).count (prn, key) =
        (if (prn, key) ∈ es.map (fun ep => ep.1.pair) then 1 else 0) := by
  refine ⟨MDP2FIC.FICOutput_processEphemeris _ _ _, rfl, ?_, ?_⟩
  · rw [MDP2FIC.inLog_recordAll]
    simp [ MDP2FIC.initialize, MDP2FIC.inLog, MDP2FIC.entry, StdMap.find, EngEphemeris.pair]
  · rw [MDP2FIC.emitted_recordAll]
    by_cases h : (prn, key) ∈ es.map (fun ep => ep.1.pair) <;>
      simp [ MDP2FIC.initialize, MDP2FIC.inLog, MDP2FIC.entry, StdMap.find, emitted, h]

/-- C2: from the empty log, every pair (satellite, fingerprint) that occurs in the
recorded sequence has exactly one log for its satellite, exactly one entry in it, and
the entry counts the occurrences of the pair; in any state a new fingerprint is entered
with count 1, and recording a repeat keeps the satellites and fingerprints of the log as
they are, adds one to the counter of its entry and leaves every other entry unchanged. -/
theorem processEphemeris_counts_repeats (x : Collaborators) (mdp : List ReadEvent)
    (log : Bool) (es : List (EngEphemeris × EphemerisPages)) (prn key : Int)
    (s : MDP2FIC) (e : EngEphemeris) (p : EphemerisPages) :
    ((prn, key) ∈ es.map (fun ep => ep.1.pair) →
        (( MDP2FIC.initialize x mdp log).recordAll es).logsFor prn = 1 ∧
        (( MDP2FIC.initialize x mdp log).recordAll es).entriesFor prn key = 1 ∧
        ∃ b, (( MDP2FIC.initialize x mdp log).recordAll es).entry prn key = some b ∧
          b.count = (es.map (fun ep => ep.1.pair)).count (prn, key)) ∧
      (s.inLog e.PRNID e.key = false →
        (s.processEphemeris e p).entry e.PRNID e.key = some ⟨e, 1⟩) ∧
      (s.inLog e.PRNID e.key = true →
        (s.processEphemeris e p).logShape = s.logShape ∧
        (s.processEphemeris e p).entry e.PRNID e.key =
          (s.entry e.PRNID e.key).map BELogEntry.increment ∧
        ∀ prn1 key1, (prn1, key1) ≠ e.pair →
          (s.processEphemeris e p).entry prn1 key1 = s.entry prn1 key1) := by
  refine ⟨fun hmem => ⟨?_, ?_, ?_⟩, fun hnew => ?_, fun hrep => ⟨?_, ?_, ?_⟩⟩
  · rw [MDP2FIC.logsFor_recordAll]
    have h1 : prn ∈ es.map (fun ep => ep.1.PRNID) := by
      obtain ⟨ep, h2, h3⟩ := List.mem_map.mp hmem
      exact List.mem_map.mpr ⟨ep, h2, congrArg Prod.fst h3⟩
    simp [ MDP2FIC.initialize, MDP2FIC.logsFor, StdMap.keys, h1]
  · rw [MDP2FIC.entriesFor_recordAll]
    simp [ MDP2FIC.initialize, MDP2FIC.entriesFor, MDP2FIC.inLog, MDP2FIC.entry,
      StdMap.find, hmem]
  · have h1 := MDP2FIC.inLog_recordAll ( MDP2FIC.initialize x mdp log) es prn key
    have h2 := MDP2FIC.count_entry_recordAll ( MDP2FIC.initialize x mdp log) es prn key
    rw [decide_eq_true hmem, Bool.or_true] at h1
    unfold MDP2FIC.inLog at h1
    obtain ⟨b, hb⟩ := Option.isSome_iff_exists.mp h1
    refine ⟨b, hb, ?_⟩
    rw [hb] at h2
    simpa [ MDP2FIC.initialize, MDP2FIC.entry, StdMap.find] using h2
  · rw [MDP2FIC.entry_processEphemeris]
    unfold MDP2FIC.inLog at hnew
    cases h1 : s.entry e.PRNID e.key with
    | none => simp [EngEphemeris.pair, BELogEntry.ofEph]
    | some b => simp [h1] at hnew
  · exact MDP2FIC.logShape_processEphemeris_repeat s e p hrep
  · rw [MDP2FIC.entry_processEphemeris]
    unfold MDP2FIC.inLog at hrep
    cases h1 : s.entry e.PRNID e.key with
    | none => simp [h1] at hrep
    | some b => simp [EngEphemeris.pair]
  · intro prn1 key1 hne
    rw [MDP2FIC.entry_processEphemeris, if_neg hne]

/-- C2 at a sample: satellite 5 records fingerprints 11, 12, 11. -/
theorem processEphemeris_counts_repeats_witness :
    ((( MDP2FIC.initialize sampleCollab [] true).recordAll
          [(sampleEph 100 11, []), (sampleEph 200 12, []), (sampleEph 300 11, [])]).logsFor 5 = 1 ∧
      (( MDP2FIC.initialize sampleCollab [] true).recordAll
          [(sampleEph 100 11, []), (sampleEph 200 12, []), (sampleEph 300 11, [])]).entriesFor
            5 11 = 1 ∧
      ∃ b, (( MDP2FIC.initialize sampleCollab [] true).recordAll
          [(sampleEph 100 11, []), (sampleEph 200 12, []), (sampleEph 300 11, [])]).entry
            5 11 = some b ∧ b.count = 2) ∧
    ((( MDP2FIC.initialize sampleCollab [] true).recordAll
          [(sampleEph 100 11, [])]).processEphemeris (sampleEph 300 11) []).logShape =
      [(5, [11])] :=
  ⟨(processEphemeris_counts_repeats sampleCollab [] true
      [(sampleEph 100 11, []), (sampleEph 200 12, []), (sampleEph 300 11, [])] 5 11
      ( MDP2FIC.initialize sampleCollab [] true) (sampleEph 100 11) []).1 (by decide),
   ((processEphemeris_counts_repeats sampleCollab [] true [] 5 11
      (( MDP2FIC.initialize sampleCollab [] true).recordAll [(sampleEph 100 11, [])])
      (sampleEph 300 11) []).2.2 (by decide)).1⟩

/-! ## Router and parity gate -/

namespace MDP2FIC

theorem processEphemeris_frame (s : MDP2FIC) (e : EngEphemeris) (p : EphemerisPages) :
    (s.processEphemeris e p).almData = s.almData ∧
      (s.processEphemeris e p).ephData = s.ephData ∧
      (s.processEphemeris e p).ephPageStore = s.ephPageStore ∧
      (s.processEphemeris e p).numSubframesCollected = s.numSubframesCollected ∧
      (s.processEphemeris e p).paritySuccessCount = s.paritySuccessCount ∧
      (s.processEphemeris e p).parityFailCount = s.parityFailCount ∧
      (s.processEphemeris e p).firstNavSF = s.firstNavSF ∧
      (s.processEphemeris e p).earliestTime = s.earliestTime ∧
      (s.processEphemeris e p).latestTime = s.latestTime ∧
      (s.processEphemeris e p).processEphemerisCalls = s.processEphemerisCalls ++ [e] := by
  unfold MDP2FIC.processEphemeris
  simp only [BELogEntry.getKey, BELogEntry.ofEph]
  cases h1 : StdMap.find s.prnBEmap e.PRNID with
  | none => simp
  | some blmr =>
    dsimp only
    cases h2 : StdMap.find blmr e.key <;> simp

theorem processSubframes1to3_almData (x : Collaborators) (s : MDP2FIC) (nav : MDPNavSubframe) :
    (s.processSubframes1to3 x nav).state.almData = s.almData := by
  unfold MDP2FIC.processSubframes1to3
  split_ifs with h1 h2
  · rfl
  · dsimp only
    cases h3 : x.makeEngEphemeris
        (StdMap.set ((StdMap.find s.ephPageStore ⟨nav.range, nav.carrier, nav.prn⟩).getD [])
          nav.sfid nav) with
    | built engEph => simp [Outcome.state, (processEphemeris_frame _ _ _).1]
    | notBuilt => rfl
    | raised => rfl
  · rfl

theorem processSubframes4and5_frame (x : Collaborators) (s : MDP2FIC) (nav : MDPNavSubframe) :
    (s.processSubframes4and5 x nav).ephData = s.ephData ∧
      (s.processSubframes4and5 x nav).ephPageStore = s.ephPageStore ∧
      (s.processSubframes4and5 x nav).prnBEmap = s.prnBEmap ∧
      (s.processSubframes4and5 x nav).numSubframesCollected = s.numSubframesCollected ∧
      (s.processSubframes4and5 x nav).paritySuccessCount = s.paritySuccessCount ∧
      (s.processSubframes4and5 x nav).parityFailCount = s.parityFailCount ∧
      (s.processSubframes4and5 x nav).earliestTime = s.earliestTime ∧
      (s.processSubframes4and5 x nav).latestTime = s.latestTime ∧
      (s.processSubframes4and5 x nav).processEphemerisCalls = s.processEphemerisCalls := by
  unfold MDP2FIC.processSubframes4and5
  split_ifs with h1 h2
  · simp
  · simp
  · dsimp only
    split
    · simp
    · split_ifs <;> simp

end MDP2FIC

/-- C3 (as stated, refuted): a parity-failing L1 C/A subframe 1 processed in the initial
state enters `ephData`, which was empty before, and a parity-failing L1 C/A subframe 4
gives `almData`, empty before, an entry for its Navigation Index. -/
theorem parity_failure_enters_ephData :
    (sampleNav 1 100 false).parity = false ∧
      ( MDP2FIC.initialize sampleCollab [] true).ephData = [] ∧
      (( MDP2FIC.initialize sampleCollab [] true).process_nav sampleCollab
          (sampleNav 1 100 false)).state.ephData =
        [(⟨RangeCode.rcCA, CarrierCode.ccL1, 5⟩, sampleNav 1 100 false)] ∧
      (sampleNav 4 100 false).parity = false ∧
      ( MDP2FIC.initialize sampleCollab [] true).almData = [] ∧
      StdMap.keys (( MDP2FIC.initialize sampleCollab [] true).process_nav sampleCollab
          (sampleNav 4 100 false)).state.almData =
        [⟨RangeCode.rcCA, CarrierCode.ccL1, 5⟩] := by
  decide

/-- C3 (amended): a subframe with identifier at most 3 that fails the parity check is
processed without raising and changes no page set, almanac store, log entry or output;
if it is L1 C/A it is recorded in `ephData` under its Navigation Index and counted in
`numSubframesCollected` and `parityFailCount`, otherwise nothing changes.  A
parity-failing subframe with identifier above 3 leaves `ephData`, the page sets and the
log unchanged and triggers no call of the deduplication log. -/
theorem parity_failure_keeps_pages_and_log (x : Collaborators) (s : MDP2FIC)
    (nav : MDPNavSubframe) (hpar : nav.parity = false) :
    (nav.sfid ≤ 3 →
        s.process_nav x nav =
          Outcome.returned
            (if nav.range = RangeCode.rcCA ∧ nav.carrier = CarrierCode.ccL1 then
              { s with
                ephData := StdMap.set s.ephData ⟨nav.range, nav.carrier, nav.prn⟩ nav
                numSubframesCollected := s.numSubframesCollected + 1
                parityFailCount := s.parityFailCount + 1 }
            else s)) ∧
      (nav.sfid ≤ 3 →
        (s.process_nav x nav).state.almData = s.almData ∧
        (s.process_nav x nav).state.FICOutput = s.FICOutput ∧
        (s.process_nav x nav).state.paritySuccessCount = s.paritySuccessCount) ∧
      (3 < nav.sfid → (s.process_nav x nav).state.ephData = s.ephData) ∧
      (s.process_nav x nav).state.ephPageStore = s.ephPageStore ∧
      (s.process_nav x nav).state.prnBEmap = s.prnBEmap ∧
      (s.process_nav x nav).state.processEphemerisCalls = s.processEphemerisCalls := by
  have key : nav.sfid ≤ 3 →
      s.process_nav x nav =
        Outcome.returned
          (if nav.range = RangeCode.rcCA ∧ nav.carrier = CarrierCode.ccL1 then
            { s with
              ephData := StdMap.set s.ephData ⟨nav.range, nav.carrier, nav.prn⟩ nav
              numSubframesCollected := s.numSubframesCollected + 1
              parityFailCount := s.parityFailCount + 1 }
          else s) := by
    intro hle
    have h3 : ¬ nav.sfid > 3 := not_lt.mpr hle
    unfold MDP2FIC.process_nav MDP2FIC.processSubframes1to3
    rw [if_neg h3]
    by_cases hsig : nav.range = RangeCode.rcCA ∧ nav.carrier = CarrierCode.ccL1
    · have h4 : ¬ (nav.range ≠ RangeCode.rcCA ∨ nav.carrier ≠ CarrierCode.ccL1) := by
        rintro (h | h)
        · exact h hsig.1
        · exact h hsig.2
      rw [if_neg h4, if_pos hsig]
      simp [hpar]
    · have h4 : nav.range ≠ RangeCode.rcCA ∨ nav.carrier ≠ CarrierCode.ccL1 := by
        by_contra hc
        push_neg at hc
        exact hsig hc
      rw [if_pos h4, if_neg hsig]
  have hcases : nav.sfid ≤ 3 ∨ 3 < nav.sfid := le_or_lt _ _
  have hgt : 3 < nav.sfid →
      s.process_nav x nav = Outcome.returned (s.processSubframes4and5 x nav) := by
    intro h
    unfold MDP2FIC.process_nav
    rw [if_pos h]
  refine ⟨key, ?_, ?_, ?_, ?_, ?_⟩
  · intro hle
    rw [key hle]
    split_ifs <;> simp [Outcome.state]
  · intro h
    rw [hgt h]
    exact (MDP2FIC.processSubframes4and5_frame x s nav).1
  · rcases hcases with hle | h
    · rw [key hle]; split_ifs <;> simp [Outcome.state]
    · rw [hgt h]; exact (MDP2FIC.processSubframes4and5_frame x s nav).2.1
  · rcases hcases with hle | h
    · rw [key hle]; split_ifs <;> simp [Outcome.state]
    · rw [hgt h]; exact (MDP2FIC.processSubframes4and5_frame x s nav).2.2.1
  · rcases hcases with hle | h
    · rw [key hle]; split_ifs <;> simp [Outcome.state]
    · rw [hgt h]; exact (MDP2FIC.processSubframes4and5_frame x s nav).2.2.2.2.2.2.2.2

/-- C3 (amended) at a sample: a parity-failing subframe 2 in the initial state. -/
theorem parity_failure_keeps_pages_and_log_witness :
    (sampleNav 2 100 false).parity = false ∧
      (( MDP2FIC.initialize sampleCollab [] true).process_nav sampleCollab
          (sampleNav 2 100 false)).state.ephPageStore = [] ∧
      (( MDP2FIC.initialize sampleCollab [] true).process_nav sampleCollab
          (sampleNav 2 100 false)).state.prnBEmap = [] :=
  ⟨rfl,
   (parity_failure_keeps_pages_and_log sampleCollab ( MDP2FIC.initialize sampleCollab [] true)
      (sampleNav 2 100 false) rfl).2.2.2.1,
   (parity_failure_keeps_pages_and_log sampleCollab ( MDP2FIC.initialize sampleCollab [] true)
      (sampleNav 2 100 false) rfl).2.2.2.2.1⟩

/-- C4 (as stated, refuted): identifiers 0 and 6 are outside 1..5 and are not dropped.
In the initial state a valid L1 C/A subframe with identifier 0 is counted and stored
under slot 0 of a page set, and one with identifier 6 creates an almanac store. -/
theorem out_of_range_sfid_not_dropped :
    (( MDP2FIC.initialize sampleCollab [] true).process_nav sampleCollab
          (sampleNav 0 100 true)).state.numSubframesCollected = 1 ∧
      (( MDP2FIC.initialize sampleCollab [] true).process_nav sampleCollab
          (sampleNav 0 100 true)).state.ephPageStore =
        [(⟨RangeCode.rcCA, CarrierCode.ccL1, 5⟩, [(0, sampleNav 0 100 true)])] ∧
      (( MDP2FIC.initialize sampleCollab [] true).process_nav sampleCollab
          (sampleNav 6 100 true)).state.almData =
        [(⟨RangeCode.rcCA, CarrierCode.ccL1, 5⟩,
          ⟨⟨RangeCode.rcCA, CarrierCode.ccL1, 5⟩, NavCode.ncICD_200_2,
            [sampleNav 6 100 true]⟩)] ∧
      ( MDP2FIC.initialize sampleCollab [] true).numSubframesCollected = 0 ∧
      ( MDP2FIC.initialize sampleCollab [] true).ephPageStore = [] ∧
      ( MDP2FIC.initialize sampleCollab [] true).almData = [] := by
  decide

/-- C4 (amended): the router has two branches and drops nothing.  Every subframe with
identifier at most 3 (so 1, 2, 3, and also 0 and negative values) is handed to the
ephemeris path only, which leaves the almanac stores unchanged; every subframe with
identifier above 3 (so 4, 5, and also 6 and above) is handed to the almanac path only,
which returns and leaves `ephData`, the page sets, the deduplication log, its call
history and the three counters unchanged. -/
theorem router_two_way (x : Collaborators) (s : MDP2FIC) (nav : MDPNavSubframe) :
    (nav.sfid ≤ 3 →
        s.process_nav x nav = s.processSubframes1to3 x nav ∧
        (s.process_nav x nav).state.almData = s.almData) ∧
      (3 < nav.sfid →
        s.process_nav x nav = Outcome.returned (s.processSubframes4and5 x nav) ∧
        (s.process_nav x nav).state.ephData = s.ephData ∧
        (s.process_nav x nav).state.ephPageStore = s.ephPageStore ∧
        (s.process_nav x nav).state.prnBEmap = s.prnBEmap ∧
        (s.process_nav x nav).state.processEphemerisCalls = s.processEphemerisCalls ∧
        (s.process_nav x nav).state.numSubframesCollected = s.numSubframesCollected ∧
        (s.process_nav x nav).state.paritySuccessCount = s.paritySuccessCount ∧
        (s.process_nav x nav).state.parityFailCount = s.parityFailCount) := by
  constructor
  · intro hle
    have h3 : ¬ nav.sfid > 3 := not_lt.mpr hle
    have e : s.process_nav x nav = s.processSubframes1to3 x nav := by
      unfold MDP2FIC.process_nav
      rw [if_neg h3]
    exact ⟨e, by rw [e]; exact MDP2FIC.processSubframes1to3_almData x s nav⟩
  · intro h
    have e : s.process_nav x nav = Outcome.returned (s.processSubframes4and5 x nav) := by
      unfold MDP2FIC.process_nav
      rw [if_pos h]
    have f := MDP2FIC.processSubframes4and5_frame x s nav
    rw [e]
    exact ⟨rfl, f.1, f.2.1, f.2.2.1, f.2.2.2.2.2.2.2.2, f.2.2.2.1, f.2.2.2.2.1,
      f.2.2.2.2.2.1⟩

/-- C4 (amended) at samples: identifier 2 goes to the ephemeris path, identifier 5 to the
almanac path. -/
theorem router_two_way_witness :
    ( MDP2FIC.initialize sampleCollab [] true).process_nav sampleCollab (sampleNav 2 100 true) =
        ( MDP2FIC.initialize sampleCollab [] true).processSubframes1to3 sampleCollab
          (sampleNav 2 100 true) ∧
      ( MDP2FIC.initialize sampleCollab [] true).process_nav sampleCollab (sampleNav 5 100 true) =
        Outcome.returned (( MDP2FIC.initialize sampleCollab [] true).processSubframes4and5
          sampleCollab (sampleNav 5 100 true)) :=
  ⟨((router_two_way sampleCollab ( MDP2FIC.initialize sampleCollab [] true)
      (sampleNav 2 100 true)).1 (by decide)).1,
   ((router_two_way sampleCollab ( MDP2FIC.initialize sampleCollab [] true)
      (sampleNav 5 100 true)).2 (by decide)).1⟩

/-! ## Ephemeris assembler -/

namespace MDP2FIC

theorem process_nav_valid (x : Collaborators) (s : MDP2FIC) (nav : MDPNavSubframe)
    (hv : nav.parity = true) (hr : nav.range = RangeCode.rcCA)
    (hc : nav.carrier = CarrierCode.ccL1) (hle : nav.sfid ≤ 3) :
    s.process_nav x nav =
      match x.makeEngEphemeris
          (StdMap.set (s.pagesOf ⟨nav.range, nav.carrier, nav.prn⟩) nav.sfid nav) with
      | Decode.built engEph =>
        Outcome.returned
          (MDP2FIC.processEphemeris
            { s with
              ephData := StdMap.set s.ephData ⟨nav.range, nav.carrier, nav.prn⟩ nav
              numSubframesCollected := s.numSubframesCollected + 1
              paritySuccessCount := s.paritySuccessCount + 1
              ephPageStore := StdMap.set s.ephPageStore ⟨nav.range, nav.carrier, nav.prn⟩
                (StdMap.set (s.pagesOf ⟨nav.range, nav.carrier, nav.prn⟩) nav.sfid nav)
              currentPRN := engEph.PRNID
              earliestTime := if s.firstNavSF then engEph.transmitTime else s.earliestTime
              firstNavSF := false
              latestTime := engEph.transmitTime }
            engEph (StdMap.set (s.pagesOf ⟨nav.range, nav.carrier, nav.prn⟩) nav.sfid nav))
      | Decode.notBuilt =>
        Outcome.returned
          { s with
            ephData := StdMap.set s.ephData ⟨nav.range, nav.carrier, nav.prn⟩ nav
            numSubframesCollected := s.numSubframesCollected + 1
            paritySuccessCount := s.paritySuccessCount + 1
            ephPageStore := StdMap.set s.ephPageStore ⟨nav.range, nav.carrier, nav.prn⟩
              (StdMap.set (s.pagesOf ⟨nav.range, nav.carrier, nav.prn⟩) nav.sfid nav) }
      | Decode.raised =>
        Outcome.raised
          { s with
            ephData := StdMap.set s.ephData ⟨nav.range, nav.carrier, nav.prn⟩ nav
            numSubframesCollected := s.numSubframesCollected + 1
            paritySuccessCount := s.paritySuccessCount + 1
            ephPageStore := StdMap.set s.ephPageStore ⟨nav.range, nav.carrier, nav.prn⟩
              (StdMap.set (s.pagesOf ⟨nav.range, nav.carrier, nav.prn⟩) nav.sfid nav) } := by
  have h3 : ¬ nav.sfid > 3 := not_lt.mpr hle
  have h4 : ¬ (nav.range ≠ RangeCode.rcCA ∨ nav.carrier ≠ CarrierCode.ccL1) := by
    rintro (h | h)
    · exact h hr
    · exact h hc
  unfold MDP2FIC.process_nav MDP2FIC.processSubframes1to3 MDP2FIC.pagesOf
  rw [if_neg h3, if_neg h4]
  simp only [hv, if_true]

theorem logView_processEphemeris (s t : MDP2FIC) (e : EngEphemeris) (p : EphemerisPages)
    (h : s.logView = t.logView) :
    (s.processEphemeris e p).logView = (t.processEphemeris e p).logView := by
  unfold MDP2FIC.logView at h ⊢
  simp only [Prod.mk.injEq] at h
  obtain ⟨h1, h2, h3⟩ := h
  have e1 : (s.processEphemeris e p).prnBEmap = (t.processEphemeris e p).prnBEmap := by
    rw [prnBEmap_processEphemeris, prnBEmap_processEphemeris, h1]
  have e2 : (s.processEphemeris e p).FICOutput = (t.processEphemeris e p).FICOutput := by
    rw [FICOutput_processEphemeris, FICOutput_processEphemeris]
    unfold MDP2FIC.inLog MDP2FIC.entry
    rw [h1, h2]
  have e3 : (s.processEphemeris e p).processEphemerisCalls =
      (t.processEphemeris e p).processEphemerisCalls := by
    rw [(processEphemeris_frame s e p).2.2.2.2.2.2.2.2.2,
      (processEphemeris_frame t e p).2.2.2.2.2.2.2.2.2, h3]
  rw [e1, e2, e3]

theorem logView_recordAll (s t : MDP2FIC) (eps : List (EngEphemeris × EphemerisPages))
    (h : s.logView = t.logView) : (s.recordAll eps).logView = (t.recordAll eps).logView := by
  induction eps generalizing s t with
  | nil => exact h
  | cons ep eps ih => exact ih _ _ (logView_processEphemeris s t ep.1 ep.2 h)

theorem calls_recordAll (s : MDP2FIC) (eps : List (EngEphemeris × EphemerisPages)) :
    (s.recordAll eps).processEphemerisCalls =
      s.processEphemerisCalls ++ eps.map (fun ep => ep.1) := by
  induction eps generalizing s with
  | nil => simp [MDP2FIC.recordAll]
  | cons ep eps ih =>
    have h : s.recordAll (ep :: eps) = (s.processEphemeris ep.1 ep.2).recordAll eps := rfl
    rw [h, ih, (processEphemeris_frame s ep.1 ep.2).2.2.2.2.2.2.2.2.2]
    simp

end MDP2FIC

namespace MDP2FIC

theorem find_set_isSome (p : EphemerisPages) (nav : MDPNavSubframe) (seen : List Int)
    (h : ∀ j, (StdMap.find p j).isSome = decide (j ∈ seen)) (j : Int) :
    (StdMap.find (StdMap.set p nav.sfid nav) j).isSome = decide (j ∈ nav.sfid :: seen) := by
  by_cases hj : nav.sfid = j
  · subst hj
    rw [StdMap.find_set_self]
    simp
  · rw [StdMap.find_set_ne _ _ _ _ hj, h j]
    have hj2 : ¬ j = nav.sfid := fun e => hj e.symm
    simp [hj2]

theorem pagesFrom_set (U : List MDPNavSubframe) (p : EphemerisPages) (nav : MDPNavSubframe)
    (h : pagesFrom U p) (hn : nav ∈ U) : pagesFrom U (StdMap.set p nav.sfid nav) := by
  intro j pg hpg
  by_cases hj : nav.sfid = j
  · subst hj
    rw [StdMap.find_set_self] at hpg
    cases hpg
    exact hn
  · rw [StdMap.find_set_ne _ _ _ _ hj] at hpg
    exact h j pg hpg

theorem populated_eq_complete (p : EphemerisPages) (seen : List Int)
    (h : ∀ j, (StdMap.find p j).isSome = decide (j ∈ seen)) :
    populated p = complete seen := by
  unfold populated complete
  rw [h 1, h 2, h 3]

theorem pagesOf_of_store (s t : MDP2FIC) (ni : NavIndex) (pgs : EphemerisPages)
    (ht : t.ephPageStore = StdMap.set s.ephPageStore ni pgs) : t.pagesOf ni = pgs := by
  unfold MDP2FIC.pagesOf
  rw [ht, StdMap.find_set_self]
  rfl

theorem step_built (x : Collaborators) (s : MDP2FIC) (nav : MDPNavSubframe)
    (hv : nav.parity = true) (hr : nav.range = RangeCode.rcCA)
    (hc : nav.carrier = CarrierCode.ccL1) (hle : nav.sfid ≤ 3) (e : EngEphemeris)
    (he : x.makeEngEphemeris
      (StdMap.set (s.pagesOf ⟨nav.range, nav.carrier, nav.prn⟩) nav.sfid nav) =
        Decode.built e) :
    ∃ s1, s.process_nav x nav = Outcome.returned s1 ∧
      s1.pagesOf ⟨nav.range, nav.carrier, nav.prn⟩ =
        StdMap.set (s.pagesOf ⟨nav.range, nav.carrier, nav.prn⟩) nav.sfid nav ∧
      s1.logView = (s.processEphemeris e
        (StdMap.set (s.pagesOf ⟨nav.range, nav.carrier, nav.prn⟩) nav.sfid nav)).logView := by
  have hstep := process_nav_valid x s nav hv hr hc hle
  rw [he] at hstep
  dsimp only at hstep
  refine ⟨_, hstep, ?_, ?_⟩
  · exact pagesOf_of_store s _ _ _ (processEphemeris_frame _ e _).2.2.1
  · exact logView_processEphemeris _ s e _ rfl

theorem step_notBuilt (x : Collaborators) (s : MDP2FIC) (nav : MDPNavSubframe)
    (hv : nav.parity = true) (hr : nav.range = RangeCode.rcCA)
    (hc : nav.carrier = CarrierCode.ccL1) (hle : nav.sfid ≤ 3)
    (he : x.makeEngEphemeris
      (StdMap.set (s.pagesOf ⟨nav.range, nav.carrier, nav.prn⟩) nav.sfid nav) =
        Decode.notBuilt) :
    ∃ s1, s.process_nav x nav = Outcome.returned s1 ∧
      s1.pagesOf ⟨nav.range, nav.carrier, nav.prn⟩ =
        StdMap.set (s.pagesOf ⟨nav.range, nav.carrier, nav.prn⟩) nav.sfid nav ∧
      s1.logView = s.logView := by
  have hstep := process_nav_valid x s nav hv hr hc hle
  rw [he] at hstep
  dsimp only at hstep
  refine ⟨_, hstep, ?_, rfl⟩
  exact pagesOf_of_store s _ _ _ rfl

theorem feed_cons_returned (x : Collaborators) (s s1 : MDP2FIC) (nav : MDPNavSubframe)
    (rest : List MDPNavSubframe) (h : s.process_nav x nav = Outcome.returned s1) :
    s.feed x (nav :: rest) = s1.feed x rest := by
  conv_lhs => unfold MDP2FIC.feed
  rw [h]

theorem feed_assembles (x : Collaborators) (prn : Int) (U : List MDPNavSubframe)
    (G : EngEphemeris → Prop) (hx : DecodesWhenComplete x U G) :
    ∀ (navs : List MDPNavSubframe) (s : MDP2FIC) (seen : List Int),
      (∀ n ∈ navs, ValidL1CA prn n ∧ n.sfid ≤ 3 ∧ n ∈ U) →
      (∀ j, (StdMap.find (s.pagesOf ⟨RangeCode.rcCA, CarrierCode.ccL1, prn⟩) j).isSome =
        decide (j ∈ seen)) →
      pagesFrom U (s.pagesOf ⟨RangeCode.rcCA, CarrierCode.ccL1, prn⟩) →
      ∃ eps : List (EngEphemeris × EphemerisPages),
        (∀ ep ∈ eps, G ep.1) ∧
        eps.length = triggers seen (navs.map (fun n => n.sfid)) ∧
        (s.feed x navs).logView = (s.recordAll eps).logView := by
  intro navs
  induction navs with
  | nil =>
    intro s seen _ _ _
    exact ⟨[], by simp, rfl, rfl⟩
  | cons nav rest ih =>
    intro s seen hvalid hseen hfrom
    obtain ⟨⟨hv, hr, hc, hp⟩, hle, hU⟩ := hvalid nav (List.mem_cons_self _ _)
    have hrest : ∀ n ∈ rest, ValidL1CA prn n ∧ n.sfid ≤ 3 ∧ n ∈ U :=
      fun n hn => hvalid n (List.mem_cons_of_mem _ hn)
    have hni : (⟨nav.range, nav.carrier, nav.prn⟩ : NavIndex) =
        ⟨RangeCode.rcCA, CarrierCode.ccL1, prn⟩ := by rw [hr, hc, hp]
    have hseen1 := find_set_isSome _ nav seen hseen
    have hfrom1 := pagesFrom_set U _ nav hfrom hU
    have hpop := populated_eq_complete _ _ hseen1
    have htr : triggers seen ((nav :: rest).map (fun n => n.sfid)) =
        (if complete (nav.sfid :: seen) then 1 else 0) +
          triggers (nav.sfid :: seen) (rest.map (fun n => n.sfid)) := rfl
    cases hcomp : complete (nav.sfid :: seen) with
    | true =>
      rw [hcomp] at hpop
      obtain ⟨e, he, hG⟩ := (hx _ hfrom1).1 hpop
      obtain ⟨s1, hs1, hpg, hlv⟩ := step_built x s nav hv hr hc hle e (by rw [hni]; exact he)
      rw [hni] at hpg hlv
      obtain ⟨eps, h1, h2, h3⟩ := ih s1 (nav.sfid :: seen) hrest
        (by rw [hpg]; exact hseen1) (by rw [hpg]; exact hfrom1)
      refine ⟨(e, StdMap.set (s.pagesOf ⟨RangeCode.rcCA, CarrierCode.ccL1, prn⟩)
        nav.sfid nav) :: eps, ?_, ?_, ?_⟩
      · intro ep hep
        rcases List.mem_cons.mp hep with h | h
        · rw [h]; exact hG
        · exact h1 ep h
      · rw [htr, hcomp, List.length_cons, h2]
        simp [Nat.add_comm]
      · rw [feed_cons_returned x s s1 nav rest hs1, h3]
        exact logView_recordAll _ _ eps hlv
    | false =>
      rw [hcomp] at hpop
      have he := (hx _ hfrom1).2 hpop
      obtain ⟨s1, hs1, hpg, hlv⟩ := step_notBuilt x s nav hv hr hc hle (by rw [hni]; exact he)
      rw [hni] at hpg
      obtain ⟨eps, h1, h2, h3⟩ := ih s1 (nav.sfid :: seen) hrest
        (by rw [hpg]; exact hseen1) (by rw [hpg]; exact hfrom1)
      refine ⟨eps, h1, ?_, ?_⟩
      · rw [htr, hcomp, h2]
        simp
      · rw [feed_cons_returned x s s1 nav rest hs1, h3]
        exact logView_recordAll _ _ eps hlv

end MDP2FIC

/-! ## Counting decode triggers -/

theorem complete_cons (a : Int) (seen : List Int) (h : complete seen = true) :
    complete (a :: seen) = true := by
  unfold complete at h ⊢
  simp only [Bool.and_eq_true, decide_eq_true_eq] at h ⊢
  exact ⟨⟨List.mem_cons_of_mem _ h.1.1, List.mem_cons_of_mem _ h.1.2⟩,
    List.mem_cons_of_mem _ h.2⟩

theorem missing_of_not_complete (seen : List Int) (h : complete seen = false) :
    ∃ j : Int, (j = 1 ∨ j = 2 ∨ j = 3) ∧ j ∉ seen := by
  by_cases h1 : (1 : Int) ∈ seen
  · by_cases h2 : (2 : Int) ∈ seen
    · by_cases h3 : (3 : Int) ∈ seen
      · simp [complete, h1, h2, h3] at h
      · exact ⟨3, Or.inr (Or.inr rfl), h3⟩
    · exact ⟨2, Or.inr (Or.inl rfl), h2⟩
  · exact ⟨1, Or.inl rfl, h1⟩

theorem triggers_of_complete (ids seen : List Int) (h : complete seen = true) :
    triggers seen ids = ids.length := by
  induction ids generalizing seen with
  | nil => rfl
  | cons a rest ih =>
    have hc := complete_cons a seen h
    simp only [triggers, hc, if_true, ih _ hc, List.length_cons]
    omega

theorem triggers_le_length (ids seen : List Int) : triggers seen ids ≤ ids.length := by
  induction ids generalizing seen with
  | nil => simp [triggers]
  | cons a rest ih =>
    have := ih (a :: seen)
    simp only [triggers, List.length_cons]
    split_ifs <;> omega

theorem triggers_ge_count (ids seen : List Int) (h : complete seen = false) :
    ∃ j : Int, (j = 1 ∨ j = 2 ∨ j = 3) ∧ j ∉ seen ∧ ids.count j ≤ triggers seen ids := by
  induction ids generalizing seen with
  | nil =>
    obtain ⟨j, hj, hn⟩ := missing_of_not_complete seen h
    exact ⟨j, hj, hn, by simp⟩
  | cons a rest ih =>
    cases hc : complete (a :: seen) with
    | true =>
      obtain ⟨j, hj, hn⟩ := missing_of_not_complete seen h
      refine ⟨j, hj, hn, ?_⟩
      have h1 := triggers_of_complete rest (a :: seen) hc
      have h2 := List.count_le_length j (a :: rest)
      simp only [triggers, hc, if_true, h1]
      simp only [List.length_cons] at h2
      omega
    | false =>
      obtain ⟨j, hj, hn, hle⟩ := ih (a :: seen) hc
      have hja : ¬ a = j := fun e => hn (e ▸ List.mem_cons_self _ _)
      have hjs : j ∉ seen := fun e => hn (List.mem_cons_of_mem _ e)
      refine ⟨j, hj, hjs, ?_⟩
      have hcount : (a :: rest).count j = rest.count j := by
        rw [List.count_cons]
        simp [hja]
      simp only [triggers, hc]
      rw [hcount]
      simpa using hle

theorem triggers_two_le (a b : Int) (rest : List Int) :
    triggers [] (a :: b :: rest) ≤ rest.length := by
  have h1 : complete [a] = false := by
    unfold complete
    by_cases h : (1 : Int) = a
    · subst h; simp
    · simp [h]
  have h2 : complete [b, a] = false := by
    unfold complete
    simp only [List.mem_cons, List.mem_singleton, List.not_mem_nil, or_false]
    by_cases e1 : (1 : Int) = b
    · by_cases e2 : (2 : Int) = a
      · subst e1; subst e2; simp
      · subst e1; simp [e2]
    · by_cases e3 : (1 : Int) = a
      · by_cases e4 : (2 : Int) = b
        · subst e3; subst e4; simp
        · subst e3; simp [e4]
      · simp [e1, e3]
  have h3 := triggers_le_length rest [b, a]
  simp only [triggers, h1, h2]
  simpa using h3

theorem triggers_only_12 (ids seen : List Int) (h : ∀ i ∈ ids, i = 1 ∨ i = 2)
    (hs : (3 : Int) ∉ seen) : triggers seen ids = 0 := by
  induction ids generalizing seen with
  | nil => rfl
  | cons a rest ih =>
    have ha : a = 1 ∨ a = 2 := h a (List.mem_cons_self _ _)
    have h3 : (3 : Int) ∉ a :: seen := by
      intro hm
      rcases List.mem_cons.mp hm with e | e
      · rcases ha with e1 | e1 <;> omega
      · exact hs e
    have hc : complete (a :: seen) = false := by
      unfold complete
      simp [h3]
    simp only [triggers, hc]
    simpa using ih (a :: seen) (fun i hi => h i (List.mem_cons_of_mem _ hi)) h3

theorem triggers_perm_123 (ids : List Int) (h : ids.Perm [1, 2, 3]) :
    triggers [] (ids.take 1) = 0 ∧ triggers [] (ids.take 2) = 0 ∧ triggers [] ids = 1 := by
  have hlen : ids.length = 3 := h.length_eq
  have hnd : ids.Nodup := h.nodup_iff.mpr (by decide)
  match ids, hlen with
  | [i, j, k], _ =>
    have hi : i ∈ [(1 : Int), 2, 3] := h.subset (by simp)
    have hj : j ∈ [(1 : Int), 2, 3] := h.subset (by simp)
    have hk : k ∈ [(1 : Int), 2, 3] := h.subset (by simp)
    simp only [List.mem_cons, List.mem_singleton, List.not_mem_nil, or_false] at hi hj hk
    simp only [List.nodup_cons, List.mem_cons, List.mem_singleton, List.not_mem_nil,
      or_false, not_or, List.nodup_nil, and_true, not_false_eq_true] at hnd
    obtain ⟨⟨hij, hik⟩, hjk⟩ := hnd
    rcases hi with rfl | rfl | rfl <;> rcases hj with rfl | rfl | rfl <;>
      rcases hk with rfl | rfl | rfl <;>
      first
        | exact absurd rfl hij
        | exact absurd rfl hik
        | exact absurd rfl hjk
        | decide

/-! ## Claims on the assembler and the end-to-end run -/

theorem DecodesWhenComplete.weaken (x : Collaborators) (U : List MDPNavSubframe)
    (G H : EngEphemeris → Prop) (hGH : ∀ e, G e → H e) (h : DecodesWhenComplete x U G) :
    DecodesWhenComplete x U H := by
  intro p hp
  refine ⟨fun hpop => ?_, (h p hp).2⟩
  obtain ⟨e, he, hG⟩ := (h p hp).1 hpop
  exact ⟨e, he, hGH e hG⟩

theorem DecodesWhenComplete.subset (x : Collaborators) (U W : List MDPNavSubframe)
    (G : EngEphemeris → Prop) (hWU : ∀ n ∈ W, n ∈ U) (h : DecodesWhenComplete x U G) :
    DecodesWhenComplete x W G :=
  fun p hp => h p (fun j pg hpg => hWU pg (hp j pg hpg))

theorem sampleCollab_decodes (U : List MDPNavSubframe) (hU : ∀ n ∈ U, n.prn = 5) :
    DecodesWhenComplete sampleCollab U (fun e => e.PRNID = 5 ∧ e.key = 77) := by
  intro p hp
  constructor
  · intro hpop
    have h1 : (StdMap.find p 1).isSome = true := by
      unfold populated at hpop
      simp only [Bool.and_eq_true] at hpop
      exact hpop.1.1
    obtain ⟨pg, hpg⟩ := Option.isSome_iff_exists.mp h1
    refine ⟨⟨pg.prn, pg.howTime, pg.howTime, 77⟩, ?_, hU pg (hp 1 pg hpg), rfl⟩
    show sampleDecode p = _
    unfold sampleDecode
    rw [if_pos hpop, hpg]
  · intro hpop
    show sampleDecode p = _
    unfold sampleDecode
    rw [hpop]
    rfl

namespace MDP2FIC

theorem calls_feed (x : Collaborators) (prn : Int) (U : List MDPNavSubframe)
    (G : EngEphemeris → Prop) (hx : DecodesWhenComplete x U G) (navs : List MDPNavSubframe)
    (s : MDP2FIC) (hs : s.ephPageStore = [])
    (hvalid : ∀ n ∈ navs, ValidL1CA prn n ∧ n.sfid ≤ 3 ∧ n ∈ U) :
    ∃ eps : List (EngEphemeris × EphemerisPages),
      (∀ ep ∈ eps, G ep.1) ∧
      eps.length = triggers [] (navs.map (fun n => n.sfid)) ∧
      (s.feed x navs).logView = (s.recordAll eps).logView := by
  have hp : s.pagesOf ⟨RangeCode.rcCA, CarrierCode.ccL1, prn⟩ = [] := by
    unfold MDP2FIC.pagesOf
    rw [hs]
    rfl
  refine feed_assembles x prn U G hx navs s [] hvalid ?_ ?_
  · intro j
    rw [hp]
    simp [StdMap.find]
  · intro j pg hpg
    rw [hp] at hpg
    simp [StdMap.find] at hpg

theorem calls_of_logView (s t : MDP2FIC) (eps : List (EngEphemeris × EphemerisPages))
    (h : t.logView = (s.recordAll eps).logView) :
    t.processEphemerisCalls = s.processEphemerisCalls ++ eps.map (fun ep => ep.1) := by
  have h1 : t.processEphemerisCalls = (s.recordAll eps).processEphemerisCalls :=
    congrArg (fun v => v.2.2) h
  rw [h1, calls_recordAll]

theorem recordAll_same_pair (prn k : Int) (eps : List (EngEphemeris × EphemerisPages))
    (heps : ∀ ep ∈ eps, ep.1.PRNID = prn ∧ ep.1.key = k) (s : MDP2FIC) (e0 : EngEphemeris)
    (n : Nat) (hs : s.prnBEmap = [(prn, [(k, ⟨e0, n⟩)])]) :
    (s.recordAll eps).prnBEmap = [(prn, [(k, ⟨e0, n + eps.length⟩)])] ∧
      (s.recordAll eps).FICOutput = s.FICOutput := by
  induction eps generalizing s n with
  | nil => exact ⟨hs, rfl⟩
  | cons ep eps ih =>
    obtain ⟨hp, hk⟩ := heps ep (List.mem_cons_self _ _)
    have hstep : (s.processEphemeris ep.1 ep.2).prnBEmap = [(prn, [(k, ⟨e0, n + 1⟩)])] := by
      rw [prnBEmap_processEphemeris, hs, hp, hk]
      simp [StdMap.find, StdMap.modify, BELogEntry.increment]
    have hout : (s.processEphemeris ep.1 ep.2).FICOutput = s.FICOutput := by
      rw [FICOutput_processEphemeris]
      unfold MDP2FIC.inLog MDP2FIC.entry
      rw [hs, hp, hk]
      simp [StdMap.find]
    have h := ih (fun ep1 h1 => heps ep1 (List.mem_cons_of_mem _ h1))
      (s.processEphemeris ep.1 ep.2) (n + 1) hstep
    have hrec : s.recordAll (ep :: eps) = (s.processEphemeris ep.1 ep.2).recordAll eps := rfl
    rw [hrec, h.1, h.2, hout, List.length_cons]
    exact ⟨by rw [Nat.add_assoc, Nat.add_comm 1], rfl⟩

theorem recordAll_from_empty (prn k : Int) (ep : EngEphemeris × EphemerisPages)
    (eps : List (EngEphemeris × EphemerisPages))
    (heps : ∀ q ∈ ep :: eps, q.1.PRNID = prn ∧ q.1.key = k) (s : MDP2FIC)
    (hs : s.prnBEmap = []) :
    (s.recordAll (ep :: eps)).prnBEmap = [(prn, [(k, ⟨ep.1, (ep :: eps).length⟩)])] ∧
      (s.recordAll (ep :: eps)).FICOutput = s.FICOutput ++ emission ep.1 ep.2 := by
  obtain ⟨hp, hk⟩ := heps ep (List.mem_cons_self _ _)
  have hstep : (s.processEphemeris ep.1 ep.2).prnBEmap = [(prn, [(k, ⟨ep.1, 1⟩)])] := by
    rw [prnBEmap_processEphemeris, hs, hp, hk]
    simp [StdMap.find, StdMap.insert, BELogEntry.ofEph]
  have hout : (s.processEphemeris ep.1 ep.2).FICOutput = s.FICOutput ++ emission ep.1 ep.2 := by
    rw [FICOutput_processEphemeris]
    unfold MDP2FIC.inLog MDP2FIC.entry
    rw [hs]
    simp [StdMap.find]
  have h := recordAll_same_pair prn k eps (fun q hq => heps q (List.mem_cons_of_mem _ hq))
    (s.processEphemeris ep.1 ep.2) ep.1 1 hstep
  have hrec : s.recordAll (ep :: eps) = (s.processEphemeris ep.1 ep.2).recordAll eps := rfl
  rw [hrec, h.1, h.2, hout, List.length_cons]
  exact ⟨by rw [Nat.add_comm], rfl⟩

end MDP2FIC

/-- C5: with a decode step that succeeds exactly on complete page sets, starting from an
empty page store and feeding parity-valid L1 C/A subframes of one satellite, no
ephemeris is handed to the deduplication log while only identifiers 1 and 2 arrive; and
when the stream is one page each of identifiers 1, 2, 3 in any order, nothing is handed
over after the first and after the second arrival and exactly one ephemeris is handed
over at the third. -/
theorem assembler_triggers_on_third_page (x : Collaborators) (prn : Int) (s : MDP2FIC)
    (navs : List MDPNavSubframe) (hx : DecodesWhenComplete x navs (fun _ => True))
    (hs : s.ephPageStore = []) (hvalid : ∀ n ∈ navs, ValidL1CA prn n) :
    ((∀ n ∈ navs, n.sfid = 1 ∨ n.sfid = 2) →
        (s.feed x navs).processEphemerisCalls = s.processEphemerisCalls) ∧
      ((navs.map (fun n => n.sfid)).Perm [1, 2, 3] →
        (s.feed x (navs.take 1)).processEphemerisCalls = s.processEphemerisCalls ∧
        (s.feed x (navs.take 2)).processEphemerisCalls = s.processEphemerisCalls ∧
        ∃ e, (s.feed x navs).processEphemerisCalls = s.processEphemerisCalls ++ [e]) := by
  have hgen : ∀ l : List MDPNavSubframe, (∀ n ∈ l, n ∈ navs) →
      (∀ n ∈ l, n.sfid ≤ 3) →
      ∃ added : List EngEphemeris,
        (s.feed x l).processEphemerisCalls = s.processEphemerisCalls ++ added ∧
        added.length = triggers [] (l.map (fun n => n.sfid)) := by
    intro l hl hle
    obtain ⟨eps, _, h2, h3⟩ := MDP2FIC.calls_feed x prn navs (fun _ => True) hx l s hs
      (fun n hn => ⟨hvalid n (hl n hn), hle n hn, hl n hn⟩)
    exact ⟨eps.map (fun ep => ep.1), MDP2FIC.calls_of_logView s _ eps h3, by simp [h2]⟩
  constructor
  · intro h12
    have hle : ∀ n ∈ navs, n.sfid ≤ 3 := by
      intro n hn
      rcases h12 n hn with h | h <;> omega
    obtain ⟨added, h1, h2⟩ := hgen navs (fun n hn => hn) hle
    have h0 : triggers [] (navs.map (fun n => n.sfid)) = 0 := by
      apply triggers_only_12
      · intro i hi
        obtain ⟨n, hn, rfl⟩ := List.mem_map.mp hi
        exact h12 n hn
      · simp
    rw [h0] at h2
    rw [h1, List.length_eq_zero.mp h2, List.append_nil]
  · intro hperm
    have hle : ∀ n ∈ navs, n.sfid ≤ 3 := by
      intro n hn
      have h1 : n.sfid ∈ [(1 : Int), 2, 3] :=
        hperm.subset (List.mem_map.mpr ⟨n, hn, rfl⟩)
      simp only [List.mem_cons, List.mem_singleton, List.not_mem_nil, or_false] at h1
      rcases h1 with h | h | h <;> omega
    obtain ⟨t1, t2, t3⟩ := triggers_perm_123 _ hperm
    have hsub : ∀ k : Nat, ∀ n ∈ navs.take k, n ∈ navs :=
      fun k n hn => List.mem_of_mem_take hn
    refine ⟨?_, ?_, ?_⟩
    · obtain ⟨added, h1, h2⟩ := hgen (navs.take 1) (hsub 1) (fun n hn => hle n (hsub 1 n hn))
      rw [List.map_take, t1] at h2
      rw [h1, List.length_eq_zero.mp h2, List.append_nil]
    · obtain ⟨added, h1, h2⟩ := hgen (navs.take 2) (hsub 2) (fun n hn => hle n (hsub 2 n hn))
      rw [List.map_take, t2] at h2
      rw [h1, List.length_eq_zero.mp h2, List.append_nil]
    · obtain ⟨added, h1, h2⟩ := hgen navs (fun n hn => hn) hle
      rw [t3] at h2
      obtain ⟨e, he⟩ := List.length_eq_one.mp h2
      exact ⟨e, by rw [h1, he]⟩

/-- C5 at a sample: pages 2, 3, 1 of satellite 5 fed in this order to the initial
state. -/
theorem assembler_triggers_on_third_page_witness :
    (( MDP2FIC.initialize sampleCollab [] true).feed sampleCollab
        [sampleNav 2 6 true, sampleNav 3 12 true]).processEphemerisCalls = [] ∧
      ∃ e, (( MDP2FIC.initialize sampleCollab [] true).feed sampleCollab
        [sampleNav 2 6 true, sampleNav 3 12 true, sampleNav 1 18 true]).processEphemerisCalls =
          [] ++ [e] :=
  ⟨(((assembler_triggers_on_third_page sampleCollab 5 ( MDP2FIC.initialize sampleCollab [] true)
      [sampleNav 2 6 true, sampleNav 3 12 true, sampleNav 1 18 true]
      (DecodesWhenComplete.weaken _ _ _ _ (fun _ _ => trivial)
        (sampleCollab_decodes _ (by decide)))
      rfl (by decide)).2 (by decide)).2).1,
   (((assembler_triggers_on_third_page sampleCollab 5 ( MDP2FIC.initialize sampleCollab [] true)
      [sampleNav 2 6 true, sampleNav 3 12 true, sampleNav 1 18 true]
      (DecodesWhenComplete.weaken _ _ _ _ (fun _ _ => trivial)
        (sampleCollab_decodes _ (by decide)))
      rfl (by decide)).2 (by decide)).2).2⟩

theorem length_eq_counts (ids : List Int) (h : ∀ i ∈ ids, i = 1 ∨ i = 2 ∨ i = 3) :
    ids.length = ids.count 1 + ids.count 2 + ids.count 3 := by
  induction ids with
  | nil => rfl
  | cons a rest ih =>
    have h1 := ih (fun i hi => h i (List.mem_cons_of_mem _ hi))
    rcases h a (List.mem_cons_self _ _) with e | e | e <;> subst e <;>
      simp [List.count_cons] <;> omega

/-- C10 (as stated, refuted): the stream 1, 2, 3, 1, 2, 3, ... of thirty parity-valid
L1 C/A subframes of satellite 5 holds ten subframes of each identifier, the decode step
`sampleDecode` succeeds exactly on complete page sets with the fixed fingerprint 77, and
the run from the initial state ends with one entry whose occurrence count is 28. -/
theorem cyclic_stream_counts_28 :
    DecodesWhenComplete sampleCollab cyclicStream (fun e => e.PRNID = 5 ∧ e.key = 77) ∧
      (∀ n ∈ cyclicStream, ValidL1CA 5 n) ∧
      cyclicStream.length = 30 ∧
      (cyclicStream.map (fun n => n.sfid)).count 1 = 10 ∧
      (cyclicStream.map (fun n => n.sfid)).count 2 = 10 ∧
      (cyclicStream.map (fun n => n.sfid)).count 3 = 10 ∧
      (( MDP2FIC.initialize sampleCollab [] true).feed sampleCollab cyclicStream).prnBEmap =
        [(5, [(77, ⟨⟨5, 0, 0, 77⟩, 28⟩)])] :=
  ⟨sampleCollab_decodes _ (by decide), by decide, by decide, by decide, by decide, by decide,
    by decide⟩

/-- C10 (amended): with a decode step that succeeds exactly on complete page sets and
yields the satellite and one fixed fingerprint, every stream of parity-valid L1 C/A
subframes of one satellite made of ten subframes each of identifiers 1, 2 and 3,
processed from the initial state, ends with exactly one log, holding exactly one entry,
and exactly one emission (the two blocks of that entry's ephemeris); the occurrence
count of the entry is the number of arrivals at which all three identifiers have been
seen, which is at least 10 and at most 28. -/
theorem thirty_subframes_one_entry (x : Collaborators) (mdp : List ReadEvent) (log : Bool)
    (prn k : Int) (navs : List MDPNavSubframe)
    (hx : DecodesWhenComplete x navs (fun e => e.PRNID = prn ∧ e.key = k))
    (hvalid : ∀ n ∈ navs, ValidL1CA prn n)
    (hids : ∀ n ∈ navs, n.sfid = 1 ∨ n.sfid = 2 ∨ n.sfid = 3)
    (h1 : (navs.map (fun n => n.sfid)).count 1 = 10)
    (h2 : (navs.map (fun n => n.sfid)).count 2 = 10)
    (h3 : (navs.map (fun n => n.sfid)).count 3 = 10) :
    navs.length = 30 ∧
      ∃ e0 p0, e0.PRNID = prn ∧ e0.key = k ∧
        (( MDP2FIC.initialize x mdp log).feed x navs).prnBEmap =
          [(prn, [(k, ⟨e0, triggers [] (navs.map (fun n => n.sfid))⟩)])] ∧
        (( MDP2FIC.initialize x mdp log).feed x navs).FICOutput = emission e0 p0 ∧
        emitted (( MDP2FIC.initialize x mdp log).feed x navs).FICOutput = [(prn, k)] ∧
        10 ≤ triggers [] (navs.map (fun n => n.sfid)) ∧
        triggers [] (navs.map (fun n => n.sfid)) ≤ 28 := by
  have hmem : ∀ i ∈ navs.map (fun n => n.sfid), i = 1 ∨ i = 2 ∨ i = 3 := by
    intro i hi
    obtain ⟨n, hn, rfl⟩ := List.mem_map.mp hi
    exact hids n hn
  have hlen : navs.length = 30 := by
    have := length_eq_counts _ hmem
    rw [List.length_map] at this
    omega
  have hle : ∀ n ∈ navs, n.sfid ≤ 3 := by
    intro n hn
    rcases hids n hn with h | h | h <;> omega
  have hlow : 10 ≤ triggers [] (navs.map (fun n => n.sfid)) := by
    obtain ⟨j, hj, _, hc⟩ := triggers_ge_count (navs.map (fun n => n.sfid)) [] (by decide)
    rcases hj with e | e | e <;> subst e <;> omega
  have hup : triggers [] (navs.map (fun n => n.sfid)) ≤ 28 := by
    match navs, hlen with
    | a :: b :: rest, hl =>
      have := triggers_two_le a.sfid b.sfid (rest.map (fun n => n.sfid))
      simp only [List.length_cons, List.length_map] at hl this
      simp only [List.map_cons]
      omega
  obtain ⟨eps, hG, hn, hlv⟩ := MDP2FIC.calls_feed x prn navs _ hx navs
    ( MDP2FIC.initialize x mdp log) rfl (fun n hn => ⟨hvalid n hn, hle n hn, hn⟩)
  have hpm : (( MDP2FIC.initialize x mdp log).feed x navs).prnBEmap =
      (( MDP2FIC.initialize x mdp log).recordAll eps).prnBEmap := congrArg (fun v => v.1) hlv
  have hout : (( MDP2FIC.initialize x mdp log).feed x navs).FICOutput =
      (( MDP2FIC.initialize x mdp log).recordAll eps).FICOutput :=
    congrArg (fun v => v.2.1) hlv
  match eps, hG, hn, hpm, hout with
  | [], _, hn, _, _ =>
    simp only [List.length_nil] at hn
    omega
  | ep :: eps1, hG, hn, hpm, hout =>
    obtain ⟨r1, r2⟩ := MDP2FIC.recordAll_from_empty prn k ep eps1 hG
      ( MDP2FIC.initialize x mdp log) rfl
    obtain ⟨hp, hk⟩ := hG ep (List.mem_cons_self _ _)
    refine ⟨hlen, ep.1, ep.2, hp, hk, ?_, ?_, ?_, hlow, hup⟩
    · rw [hpm, r1, hn]
    · rw [hout, r2]
      rfl
    · rw [hout, r2]
      show emitted ([] ++ emission ep.1 ep.2) = _
      rw [List.nil_append, MDP2FIC.emitted_emission]
      unfold EngEphemeris.pair
      rw [hp, hk]

/-- C10 (amended) at a sample: ten subframes 1, then ten subframes 2, then ten
subframes 3 of satellite 5. -/
theorem thirty_subframes_one_entry_witness :
    groupedStream.length = 30 ∧
      ∃ e0 p0, e0.PRNID = 5 ∧ e0.key = 77 ∧
        (( MDP2FIC.initialize sampleCollab [] true).feed sampleCollab groupedStream).prnBEmap =
          [(5, [(77, ⟨e0, triggers [] (groupedStream.map (fun n => n.sfid))⟩)])] ∧
        (( MDP2FIC.initialize sampleCollab [] true).feed sampleCollab groupedStream).FICOutput =
          emission e0 p0 ∧
        emitted (( MDP2FIC.initialize sampleCollab [] true).feed sampleCollab
          groupedStream).FICOutput = [(5, 77)] ∧
        10 ≤ triggers [] (groupedStream.map (fun n => n.sfid)) ∧
        triggers [] (groupedStream.map (fun n => n.sfid)) ≤ 28 :=
  thirty_subframes_one_entry sampleCollab [] true 5 77 groupedStream
    (sampleCollab_decodes _ (by decide)) (by decide) (by decide) (by decide) (by decide)
    (by decide)

/-! ## Summary report -/

theorem StdMap.mem_insert {V : Type} (m : StdMap Int V) (k : Int) (v : V) (p : Int × V)
    (h : p ∈ StdMap.insert m k v) : p = (k, v) ∨ p ∈ m := by
  induction m with
  | nil => simpa [StdMap.insert] using h
  | cons a m ih =>
    obtain ⟨k', v'⟩ := a
    simp only [StdMap.insert] at h
    split_ifs at h with h1 h2
    · rcases List.mem_cons.mp h with e | e
      · exact Or.inl e
      · exact Or.inr e
    · exact Or.inr h
    · rcases List.mem_cons.mp h with e | e
      · exact Or.inr (e ▸ List.mem_cons_self _ _)
      · rcases ih e with e1 | e1
        · exact Or.inl e1
        · exact Or.inr (List.mem_cons_of_mem _ e1)

theorem StdMap.keys_insert_sorted {V : Type} (m : StdMap Int V) (k : Int) (v : V)
    (h : (StdMap.keys m).Pairwise (fun a b => a < b)) :
    (StdMap.keys (StdMap.insert m k v)).Pairwise (fun a b => a < b) := by
  induction m with
  | nil => simp [StdMap.insert, StdMap.keys]
  | cons a m ih =>
    obtain ⟨k', v'⟩ := a
    simp only [StdMap.keys, List.map_cons, List.pairwise_cons] at h
    obtain ⟨hhead, htail⟩ := h
    simp only [StdMap.insert]
    split_ifs with h1 h2
    · simp only [StdMap.keys, List.map_cons, List.pairwise_cons]
      refine ⟨?_, hhead, htail⟩
      intro b hb
      rcases List.mem_cons.mp hb with e | e
      · rw [e]; exact h1
      · exact lt_trans h1 (hhead b e)
    · simp only [StdMap.keys, List.map_cons, List.pairwise_cons]
      exact ⟨hhead, htail⟩
    · simp only [StdMap.keys, List.map_cons, List.pairwise_cons]
      refine ⟨?_, ih htail⟩
      intro b hb
      obtain ⟨p, hp, rfl⟩ := List.mem_map.mp hb
      rcases StdMap.mem_insert m k v p hp with e | e
      · rw [e]
        show k' < k
        omega
      · exact hhead p.1 (List.mem_map.mpr ⟨p, e, rfl⟩)

theorem reorder_invariant (blm : BELogMap) (r : StdMap Int BELogEntry)
    (hs : (StdMap.keys r).Pairwise (fun a b => a < b))
    (hk : ∀ p ∈ r, p.1 = GPSWeekSecond.sow p.2.getHOW) :
    (StdMap.keys (blm.foldl
        (fun r bp => StdMap.insert r (GPSWeekSecond.sow bp.2.getHOW) bp.2) r)).Pairwise
        (fun a b => a < b) ∧
      ∀ p ∈ blm.foldl (fun r bp => StdMap.insert r (GPSWeekSecond.sow bp.2.getHOW) bp.2) r,
        p.1 = GPSWeekSecond.sow p.2.getHOW := by
  induction blm generalizing r with
  | nil => exact ⟨hs, hk⟩
  | cons bp blm ih =>
    refine ih _ (StdMap.keys_insert_sorted r _ _ hs) ?_
    intro p hp
    rcases StdMap.mem_insert r _ _ p hp with e | e
    · rw [e]
    · exact hk p e

theorem reportRows_sorted (blm : BELogMap) :
    ((reportRows blm).map (fun b => GPSWeekSecond.sow b.getHOW)).Pairwise
      (fun a b => a < b) := by
  obtain ⟨h1, h2⟩ := reorder_invariant blm [] (by simp [StdMap.keys]) (by simp)
  have e : (reportRows blm).map (fun b => GPSWeekSecond.sow b.getHOW) =
      StdMap.keys (reorder blm) := by
    unfold reportRows StdMap.values StdMap.keys
    rw [List.map_map]
    apply List.map_congr_left
    intro p hp
    exact (h2 p hp).symm
  rw [e]
  exact h1

/-- C6: evaluation at the failing input.  Satellite 5 logs two ephemerides with
different fingerprints whose HOW times are one week apart (second of week 7200 in both);
the report announces two unique ephemerides and writes one row. -/
theorem report_drops_entry_with_same_sow :
    (( MDP2FIC.initialize sampleCollab [] true).recordAll
        [(⟨5, 7200, 7200, 11⟩, []), (⟨5, 612000, 612000, 12⟩, [])]).prnBEmap =
        [(5, [(11, ⟨⟨5, 7200, 7200, 11⟩, 1⟩), (12, ⟨⟨5, 612000, 612000, 12⟩, 1⟩)])] ∧
      ((( MDP2FIC.initialize sampleCollab [] true).recordAll
        [(⟨5, 7200, 7200, 11⟩, []), (⟨5, 612000, 612000, 12⟩, [])]).writeLogFile).map
          (fun lf => lf.summaries) =
        some [⟨5, 2, [⟨⟨5, 7200, 7200, 11⟩, 1⟩]⟩] := by
  decide

/-- C7: in every summary written by `writeLogFile`, whatever the stored order of the
log, the rows are strictly increasing by the HOW seconds of week of their entries. -/
theorem report_rows_strictly_increasing (s : MDP2FIC) (lf : LogFile)
    (h : s.writeLogFile = some lf) :
    ∀ sm ∈ lf.summaries,
      (sm.rows.map (fun b => GPSWeekSecond.sow b.getHOW)).Pairwise (fun a b => a < b) := by
  unfold MDP2FIC.writeLogFile at h
  split_ifs at h
  cases h
  intro sm hsm
  obtain ⟨pp, _, rfl⟩ := List.mem_map.mp hsm
  exact reportRows_sorted pp.2

/-- C7 at a sample: fingerprints 11, 12, 13 logged with HOW seconds of week 300, 100,
200. -/
theorem report_rows_strictly_increasing_witness :
    (( MDP2FIC.initialize sampleCollab [] true).recordAll
        [(sampleEph 300 11, []), (sampleEph 100 12, []), (sampleEph 200 13, [])]).writeLogFile =
      some ⟨0, 4000000000, 0, 0, 0,
        [⟨5, 3, [⟨sampleEph 100 12, 1⟩, ⟨sampleEph 200 13, 1⟩, ⟨sampleEph 300 11, 1⟩]⟩]⟩ ∧
    ∀ sm ∈ [(⟨5, 3, [⟨sampleEph 100 12, 1⟩, ⟨sampleEph 200 13, 1⟩,
        ⟨sampleEph 300 11, 1⟩]⟩ : PrnSummary)],
      (sm.rows.map (fun b => GPSWeekSecond.sow b.getHOW)).Pairwise (fun a b => a < b) :=
  ⟨by decide,
   report_rows_strictly_increasing
    (( MDP2FIC.initialize sampleCollab [] true).recordAll
        [(sampleEph 300 11, []), (sampleEph 100 12, []), (sampleEph 200 13, [])])
    ⟨0, 4000000000, 0, 0, 0,
        [⟨5, 3, [⟨sampleEph 100 12, 1⟩, ⟨sampleEph 200 13, 1⟩, ⟨sampleEph 300 11, 1⟩]⟩]⟩
    (by decide)⟩

/-! ## Statistics and stream driver -/

namespace MDP2FIC

theorem processSubframes4and5_firstNavSF (x : Collaborators) (s : MDP2FIC)
    (nav : MDPNavSubframe) : (s.processSubframes4and5 x nav).firstNavSF = s.firstNavSF := by
  unfold MDP2FIC.processSubframes4and5
  split_ifs with h1 h2
  · rfl
  · rfl
  · dsimp only
    split
    · rfl
    · split_ifs <;> rfl

theorem timesTrackCalls_built (s t : MDP2FIC) (e : EngEphemeris) (h : s.TimesTrackCalls)
    (h1 : t.firstNavSF = false)
    (h2 : t.earliestTime = if s.firstNavSF then e.transmitTime else s.earliestTime)
    (h3 : t.latestTime = e.transmitTime)
    (h4 : t.processEphemerisCalls = s.processEphemerisCalls ++ [e]) : t.TimesTrackCalls := by
  right
  refine ⟨h1, ?_, ?_⟩
  · rcases h with ⟨hf, hc⟩ | ⟨hf, hhead, _⟩
    · rw [h4, h2, hc, hf]
      rfl
    · rw [h4, h2, hf]
      cases hl : s.processEphemerisCalls with
      | nil => rw [hl] at hhead; simp at hhead
      | cons a l =>
        rw [hl] at hhead
        simpa using hhead
  · rw [h4, h3]
    simp

theorem timesTrackCalls_same (s t : MDP2FIC) (h : s.TimesTrackCalls)
    (h1 : t.firstNavSF = s.firstNavSF) (h2 : t.earliestTime = s.earliestTime)
    (h3 : t.latestTime = s.latestTime)
    (h4 : t.processEphemerisCalls = s.processEphemerisCalls) : t.TimesTrackCalls := by
  unfold MDP2FIC.TimesTrackCalls
  rw [h1, h2, h3, h4]
  exact h

theorem timesTrackCalls_1to3 (x : Collaborators) (s : MDP2FIC) (nav : MDPNavSubframe)
    (h : s.TimesTrackCalls) : (s.processSubframes1to3 x nav).state.TimesTrackCalls := by
  unfold MDP2FIC.processSubframes1to3
  split_ifs with h1 h2
  · exact h
  · dsimp only
    cases h3 : x.makeEngEphemeris
        (StdMap.set ((StdMap.find s.ephPageStore ⟨nav.range, nav.carrier, nav.prn⟩).getD [])
          nav.sfid nav) with
    | built engEph =>
      dsimp only [Outcome.state]
      have f := processEphemeris_frame
        { s with
          ephData := StdMap.set s.ephData ⟨nav.range, nav.carrier, nav.prn⟩ nav
          numSubframesCollected := s.numSubframesCollected + 1
          paritySuccessCount := s.paritySuccessCount + 1
          ephPageStore := StdMap.set s.ephPageStore ⟨nav.range, nav.carrier, nav.prn⟩
            (StdMap.set ((StdMap.find s.ephPageStore ⟨nav.range, nav.carrier, nav.prn⟩).getD
              []) nav.sfid nav)
          currentPRN := engEph.PRNID
          earliestTime := if s.firstNavSF then engEph.transmitTime else s.earliestTime
          firstNavSF := false
          latestTime := engEph.transmitTime }
        engEph
        (StdMap.set ((StdMap.find s.ephPageStore ⟨nav.range, nav.carrier, nav.prn⟩).getD [])
          nav.sfid nav)
      exact timesTrackCalls_built s _ engEph h f.2.2.2.2.2.2.1 f.2.2.2.2.2.2.2.1
        f.2.2.2.2.2.2.2.2.1 f.2.2.2.2.2.2.2.2.2
    | notBuilt => exact timesTrackCalls_same s _ h rfl rfl rfl rfl
    | raised => exact timesTrackCalls_same s _ h rfl rfl rfl rfl
  · exact timesTrackCalls_same s _ h rfl rfl rfl rfl

theorem timesTrackCalls_process_nav (x : Collaborators) (s : MDP2FIC) (nav : MDPNavSubframe)
    (h : s.TimesTrackCalls) : (s.process_nav x nav).state.TimesTrackCalls := by
  unfold MDP2FIC.process_nav
  split_ifs with h1
  · have f := processSubframes4and5_frame x s nav
    exact timesTrackCalls_same s _ h (processSubframes4and5_firstNavSF x s nav)
      f.2.2.2.2.2.2.1 f.2.2.2.2.2.2.2.1 f.2.2.2.2.2.2.2.2
  · exact timesTrackCalls_1to3 x s nav h

theorem timesTrackCalls_feed (x : Collaborators) (navs : List MDPNavSubframe) (s : MDP2FIC)
    (h : s.TimesTrackCalls) : (s.feed x navs).TimesTrackCalls := by
  induction navs generalizing s with
  | nil => exact h
  | cons nav rest ih =>
    have hstep := timesTrackCalls_process_nav x s nav h
    unfold MDP2FIC.feed
    cases hp : s.process_nav x nav with
    | returned s1 =>
      rw [hp] at hstep
      exact ih s1 hstep
    | raised s1 =>
      rw [hp] at hstep
      exact hstep

end MDP2FIC

theorem le_getLast_of_pairwise (l : List Int) (h : l.Pairwise (fun a b => a ≤ b)) (t : Int)
    (ht : l.getLast? = some t) : ∀ a ∈ l, a ≤ t := by
  induction l with
  | nil => intro a ha; simp at ha
  | cons b l ih =>
    obtain ⟨hb, hl⟩ := List.pairwise_cons.mp h
    cases l with
    | nil =>
      intro a ha
      simp only [List.getLast?_singleton, Option.some.injEq] at ht
      simp only [List.mem_singleton] at ha
      omega
    | cons c l =>
      rw [List.getLast?_cons_cons] at ht
      have htm : t ∈ c :: l := List.mem_of_getLast?_eq_some ht
      intro a ha
      rcases List.mem_cons.mp ha with e | e
      · rw [e]; exact hb t htm
      · exact ih hl ht a e

/-- C8 (as stated, refuted): the subframes 1, 2, 3 with HOW times 20, 26, 32 followed by
a subframe 1 with HOW time 10 decode two ephemerides with transmit times 20 and 10;
after the run `earliestTime` is 20 and `latestTime` is 10. -/
theorem earliest_latest_not_min_max :
    ((( MDP2FIC.initialize sampleCollab [] true).feed sampleCollab
        [sampleNav 1 20 true, sampleNav 2 26 true, sampleNav 3 32 true,
          sampleNav 1 10 true]).processEphemerisCalls.map (fun e => e.transmitTime) =
        [20, 10]) ∧
      (( MDP2FIC.initialize sampleCollab [] true).feed sampleCollab
        [sampleNav 1 20 true, sampleNav 2 26 true, sampleNav 3 32 true,
          sampleNav 1 10 true]).earliestTime = 20 ∧
      (( MDP2FIC.initialize sampleCollab [] true).feed sampleCollab
        [sampleNav 1 20 true, sampleNav 2 26 true, sampleNav 3 32 true,
          sampleNav 1 10 true]).latestTime = 10 := by
  decide

/-- C8 (amended): after processing any stream of subframes from the initial state in
which at least one ephemeris was decoded, `earliestTime` is the transmit time of the
first decoded ephemeris and `latestTime` that of the last one; when the transmit times
were observed in non-decreasing order, every observed time lies between them. -/
theorem earliest_latest_are_first_last (x : Collaborators) (mdp : List ReadEvent) (log : Bool)
    (navs : List MDPNavSubframe) (first : EngEphemeris) (rest : List EngEphemeris)
    (hobs : (( MDP2FIC.initialize x mdp log).feed x navs).processEphemerisCalls =
      first :: rest) :
    (( MDP2FIC.initialize x mdp log).feed x navs).earliestTime = first.transmitTime ∧
      (first :: rest).getLast?.map (fun e => e.transmitTime) =
        some (( MDP2FIC.initialize x mdp log).feed x navs).latestTime ∧
      (((first :: rest).map (fun e => e.transmitTime)).Pairwise (fun a b => a ≤ b) →
        ∀ e ∈ first :: rest,
          (( MDP2FIC.initialize x mdp log).feed x navs).earliestTime ≤ e.transmitTime ∧
          e.transmitTime ≤ (( MDP2FIC.initialize x mdp log).feed x navs).latestTime) := by
  have hinv := MDP2FIC.timesTrackCalls_feed x navs ( MDP2FIC.initialize x mdp log)
    (Or.inl ⟨rfl, rfl⟩)
  rcases hinv with ⟨_, hc⟩ | ⟨_, hhead, hlast⟩
  · rw [hobs] at hc
    exact absurd hc (List.cons_ne_nil _ _)
  · rw [hobs] at hhead hlast
    have he : (( MDP2FIC.initialize x mdp log).feed x navs).earliestTime =
        first.transmitTime := by
      simpa using hhead.symm
    refine ⟨he, hlast, ?_⟩
    intro hsorted e hmem
    constructor
    · rw [he]
      rcases List.mem_cons.mp hmem with h | h
      · rw [h]
      · have := (List.pairwise_cons.mp hsorted).1 e.transmitTime
          (List.mem_map.mpr ⟨e, h, rfl⟩)
        exact this
    · apply le_getLast_of_pairwise _ hsorted
      · rw [List.getLast?_map]
        exact hlast
      · exact List.mem_map.mpr ⟨e, hmem, rfl⟩

/-- C8 (amended) at a sample: two decodes in chronological order, transmit times 20
and 50. -/
theorem earliest_latest_are_first_last_witness :
    (( MDP2FIC.initialize sampleCollab [] true).feed sampleCollab
        [sampleNav 1 20 true, sampleNav 2 26 true, sampleNav 3 32 true,
          sampleNav 1 50 true]).earliestTime = 20 ∧
      (( MDP2FIC.initialize sampleCollab [] true).feed sampleCollab
        [sampleNav 1 20 true, sampleNav 2 26 true, sampleNav 3 32 true,
          sampleNav 1 50 true]).latestTime = 50 :=
  ⟨(earliest_latest_are_first_last sampleCollab [] true
      [sampleNav 1 20 true, sampleNav 2 26 true, sampleNav 3 32 true, sampleNav 1 50 true]
      ⟨5, 20, 20, 77⟩ [⟨5, 50, 50, 77⟩] (by decide)).1,
   (Option.some.inj (earliest_latest_are_first_last sampleCollab [] true
      [sampleNav 1 20 true, sampleNav 2 26 true, sampleNav 3 32 true, sampleNav 1 50 true]
      ⟨5, 20, 20, 77⟩ [⟨5, 50, 50, 77⟩] (by decide)).2.1).symm⟩

namespace MDP2FIC

theorem processEphemeris_mdpInput (s : MDP2FIC) (e : EngEphemeris) (p : EphemerisPages) :
    (s.processEphemeris e p).mdpInput = s.mdpInput := by
  unfold MDP2FIC.processEphemeris
  simp only [BELogEntry.getKey, BELogEntry.ofEph]
  cases h1 : StdMap.find s.prnBEmap e.PRNID with
  | none => rfl
  | some blmr =>
    dsimp only
    cases h2 : StdMap.find blmr e.key <;> rfl

theorem process_nav_mdpInput (x : Collaborators) (s : MDP2FIC) (nav : MDPNavSubframe) :
    (s.process_nav x nav).state.mdpInput = s.mdpInput := by
  unfold MDP2FIC.process_nav
  split_ifs with h
  · unfold MDP2FIC.processSubframes4and5
    split_ifs with h1 h2
    · rfl
    · rfl
    · dsimp only
      split
      · rfl
      · split_ifs <;> rfl
  · unfold MDP2FIC.processSubframes1to3
    split_ifs with h1 h2
    · rfl
    · dsimp only
      cases h3 : x.makeEngEphemeris
          (StdMap.set ((StdMap.find s.ephPageStore ⟨nav.range, nav.carrier, nav.prn⟩).getD [])
            nav.sfid nav) with
      | built engEph => exact processEphemeris_mdpInput _ _ _
      | notBuilt => rfl
      | raised => rfl
    · rfl

theorem process_nav_raised_iff (x : Collaborators) (s : MDP2FIC) (nav : MDPNavSubframe) :
    (∃ s1, s.process_nav x nav = Outcome.raised s1) ↔
      nav.sfid ≤ 3 ∧ nav.range = RangeCode.rcCA ∧ nav.carrier = CarrierCode.ccL1 ∧
        nav.parity = true ∧
        x.makeEngEphemeris
          (StdMap.set (s.pagesOf ⟨nav.range, nav.carrier, nav.prn⟩) nav.sfid nav) =
            Decode.raised := by
  constructor
  · rintro ⟨s1, h⟩
    unfold MDP2FIC.process_nav at h
    split_ifs at h with h0
    have hle : nav.sfid ≤ 3 := not_lt.mp h0
    unfold MDP2FIC.processSubframes1to3 at h
    split_ifs at h with h1 h2
    have hsig : nav.range = RangeCode.rcCA ∧ nav.carrier = CarrierCode.ccL1 := by
      constructor
      · by_contra hc; exact h1 (Or.inl hc)
      · by_contra hc; exact h1 (Or.inr hc)
    refine ⟨hle, hsig.1, hsig.2, h2, ?_⟩
    dsimp only at h
    unfold MDP2FIC.pagesOf
    cases h3 : x.makeEngEphemeris
        (StdMap.set ((StdMap.find s.ephPageStore ⟨nav.range, nav.carrier, nav.prn⟩).getD [])
          nav.sfid nav) with
    | built engEph => rw [h3] at h; exact Outcome.noConfusion h
    | notBuilt => rw [h3] at h; exact Outcome.noConfusion h
    | raised => rfl
  · rintro ⟨hle, hr, hc, hv, hd⟩
    have hstep := process_nav_valid x s nav hv hr hc hle
    rw [hd] at hstep
    exact ⟨_, hstep⟩

end MDP2FIC

/-- C9 (as stated, refuted): the first record of a two-record input is read
successfully, the decode step raises while it is processed, and the driver step sets
`timeToDie` although a record is still waiting in the input. -/
theorem decode_fault_sets_timeToDie :
    ( MDP2FIC.initialize raisingCollab
        [ReadEvent.navRecord (sampleNav 1 6 true),
          ReadEvent.navRecord (sampleNav 2 12 true)] true).timeToDie = false ∧
      (( MDP2FIC.initialize raisingCollab
        [ReadEvent.navRecord (sampleNav 1 6 true),
          ReadEvent.navRecord (sampleNav 2 12 true)] true).process raisingCollab).timeToDie =
        true ∧
      (( MDP2FIC.initialize raisingCollab
        [ReadEvent.navRecord (sampleNav 1 6 true),
          ReadEvent.navRecord (sampleNav 2 12 true)] true).process raisingCollab).mdpInput =
        [ReadEvent.navRecord (sampleNav 2 12 true)] := by
  decide

/-- C9 (amended): a driver step sets `timeToDie` exactly when the input is exhausted, the
extraction faults, or processing the subframe just read raises (which it does exactly
when the decode step raises on the updated page set of a parity-valid L1 C/A subframe
with identifier at most 3); every other step leaves `timeToDie` false, and every step on
a non-empty input moves on to the next record. -/
theorem timeToDie_iff_exhausted_fault_or_raise (x : Collaborators) (s : MDP2FIC) :
    ((s.process x).timeToDie = true ↔
        s.mdpInput = [] ∨ (∃ rest, s.mdpInput = ReadEvent.fault :: rest) ∨
        (∃ nav rest, s.mdpInput = ReadEvent.navRecord nav :: rest ∧
          nav.sfid ≤ 3 ∧ nav.range = RangeCode.rcCA ∧ nav.carrier = CarrierCode.ccL1 ∧
          nav.parity = true ∧
          x.makeEngEphemeris
            (StdMap.set (s.pagesOf ⟨nav.range, nav.carrier, nav.prn⟩) nav.sfid nav) =
              Decode.raised)) ∧
      (s.process x).mdpInput = s.mdpInput.tail := by
  cases hin : s.mdpInput with
  | nil =>
    have h : s.process x = { s with timeToDie := true } := by
      unfold MDP2FIC.process
      rw [hin]
    rw [h]
    simp [hin]
  | cons ev rest =>
    cases ev with
    | fault =>
      have h : s.process x = { s with mdpInput := rest, timeToDie := true } := by
        unfold MDP2FIC.process
        rw [hin]
      rw [h]
      simp
    | obsRecord =>
      have h : s.process x =
          { s with mdpInput := rest, obsCount := s.obsCount + 1, timeToDie := false } := by
        unfold MDP2FIC.process
        rw [hin]
      rw [h]
      simp
    | otherRecord =>
      have h : s.process x = { s with mdpInput := rest, timeToDie := false } := by
        unfold MDP2FIC.process
        rw [hin]
      rw [h]
      simp
    | navRecord nav =>
      have hraise := MDP2FIC.process_nav_raised_iff x { s with mdpInput := rest } nav
      have hpages : MDP2FIC.pagesOf { s with mdpInput := rest }
          ⟨nav.range, nav.carrier, nav.prn⟩ = s.pagesOf ⟨nav.range, nav.carrier, nav.prn⟩ := rfl
      rw [hpages] at hraise
      have hmdp := MDP2FIC.process_nav_mdpInput x { s with mdpInput := rest } nav
      have h : s.process x =
          match MDP2FIC.process_nav x { s with mdpInput := rest } nav with
          | Outcome.returned s1 => { s1 with timeToDie := false }
          | Outcome.raised s1 => { s1 with timeToDie := true } := by
        unfold MDP2FIC.process
        rw [hin]
      rw [h]
      cases hp : MDP2FIC.process_nav x { s with mdpInput := rest } nav with
      | returned s1 =>
        rw [hp] at hmdp
        have hno : ¬ ∃ s2, MDP2FIC.process_nav x { s with mdpInput := rest } nav =
            Outcome.raised s2 := by
          rintro ⟨s2, h2⟩
          rw [hp] at h2
          exact Outcome.noConfusion h2
        rw [hraise] at hno
        refine ⟨?_, hmdp⟩
        constructor
        · intro hc
          simp at hc
        · rintro (h1 | ⟨r, h1⟩ | ⟨n, r, h1, h2⟩)
          · exact absurd h1 (List.cons_ne_nil _ _)
          · simp at h1
          · simp only [List.cons.injEq, ReadEvent.navRecord.injEq] at h1
            obtain ⟨h3, _⟩ := h1
            subst h3
            exact absurd h2 hno
      | raised s1 =>
        rw [hp] at hmdp
        have hyes : ∃ s2, MDP2FIC.process_nav x { s with mdpInput := rest } nav =
            Outcome.raised s2 := ⟨s1, hp⟩
        rw [hraise] at hyes
        refine ⟨?_, hmdp⟩
        constructor
        · intro _
          exact Or.inr (Or.inr ⟨nav, rest, rfl, hyes⟩)
        · intro _
          rfl

/-- C9 (amended) at samples: on an exhausted input the step sets `timeToDie`; on a
two-record input the step leaves the second record at the head of the input. -/
theorem timeToDie_iff_exhausted_fault_or_raise_witness :
    (( MDP2FIC.initialize sampleCollab [] true).process sampleCollab).timeToDie = true ∧
      (( MDP2FIC.initialize sampleCollab
        [ReadEvent.navRecord (sampleNav 1 6 true), ReadEvent.obsRecord]
        true).process sampleCollab).mdpInput = [ReadEvent.obsRecord] :=
  ⟨(timeToDie_iff_exhausted_fault_or_raise sampleCollab
      ( MDP2FIC.initialize sampleCollab [] true)).1.mpr (Or.inl rfl),
   (timeToDie_iff_exhausted_fault_or_raise sampleCollab
      ( MDP2FIC.initialize sampleCollab
        [ReadEvent.navRecord (sampleNav 1 6 true), ReadEvent.obsRecord] true)).2⟩

/-! ## Parity statistics -/

namespace MDP2FIC

theorem counters_1to3 (x : Collaborators) (s : MDP2FIC) (nav : MDPNavSubframe) :
    (s.processSubframes1to3 x nav).state.numSubframesCollected =
        s.numSubframesCollected +
          (if nav.range = RangeCode.rcCA ∧ nav.carrier = CarrierCode.ccL1 then 1 else 0) ∧
      (s.processSubframes1to3 x nav).state.paritySuccessCount =
        s.paritySuccessCount +
          (if nav.range = RangeCode.rcCA ∧ nav.carrier = CarrierCode.ccL1 ∧
            nav.parity = true then 1 else 0) ∧
      (s.processSubframes1to3 x nav).state.parityFailCount =
        s.parityFailCount +
          (if nav.range = RangeCode.rcCA ∧ nav.carrier = CarrierCode.ccL1 ∧
            nav.parity = false then 1 else 0) := by
  unfold MDP2FIC.processSubframes1to3
  by_cases hr : nav.range = RangeCode.rcCA
  · by_cases hc : nav.carrier = CarrierCode.ccL1
    · have h4 : ¬ (nav.range ≠ RangeCode.rcCA ∨ nav.carrier ≠ CarrierCode.ccL1) := by
        rintro (h | h)
        · exact h hr
        · exact h hc
      rw [if_neg h4]
      cases hv : nav.parity with
      | false => simp [Outcome.state, hr, hc]
      | true =>
        simp only [if_true]
        cases h3 : x.makeEngEphemeris
            (StdMap.set
              ((StdMap.find s.ephPageStore ⟨nav.range, nav.carrier, nav.prn⟩).getD [])
              nav.sfid nav) with
        | built engEph =>
          have f := processEphemeris_frame
            { s with
              ephData := StdMap.set s.ephData ⟨nav.range, nav.carrier, nav.prn⟩ nav
              numSubframesCollected := s.numSubframesCollected + 1
              paritySuccessCount := s.paritySuccessCount + 1
              ephPageStore := StdMap.set s.ephPageStore ⟨nav.range, nav.carrier, nav.prn⟩
                (StdMap.set
                  ((StdMap.find s.ephPageStore ⟨nav.range, nav.carrier, nav.prn⟩).getD [])
                  nav.sfid nav)
              currentPRN := engEph.PRNID
              earliestTime := if s.firstNavSF then engEph.transmitTime else s.earliestTime
              firstNavSF := false
              latestTime := engEph.transmitTime }
            engEph
            (StdMap.set
              ((StdMap.find s.ephPageStore ⟨nav.range, nav.carrier, nav.prn⟩).getD [])
              nav.sfid nav)
          dsimp only [Outcome.state]
          rw [f.2.2.2.1, f.2.2.2.2.1, f.2.2.2.2.2.1]
          simp [hr, hc]
        | notBuilt => simp [Outcome.state, hr, hc]
        | raised => simp [Outcome.state, hr, hc]
    · rw [if_pos (Or.inr hc)]
      simp [Outcome.state, hc]
  · rw [if_pos (Or.inl hr)]
    simp [Outcome.state, hr]

theorem countersBalance_process_nav (x : Collaborators) (s : MDP2FIC) (nav : MDPNavSubframe)
    (h : s.CountersBalance) : (s.process_nav x nav).state.CountersBalance := by
  unfold MDP2FIC.CountersBalance at h ⊢
  unfold MDP2FIC.process_nav
  split_ifs with h1
  · have f := processSubframes4and5_frame x s nav
    dsimp only [Outcome.state]
    rw [f.2.2.2.1, f.2.2.2.2.1, f.2.2.2.2.2.1]
    exact h
  · obtain ⟨c1, c2, c3⟩ := counters_1to3 x s nav
    rw [c1, c2, c3]
    by_cases hr : nav.range = RangeCode.rcCA
    · by_cases hc : nav.carrier = CarrierCode.ccL1
      · cases hv : nav.parity <;> simp [hr, hc] <;> omega
      · simp [hc]; omega
    · simp [hr]; omega

theorem countersBalance_process (x : Collaborators) (s : MDP2FIC) (h : s.CountersBalance) :
    (s.process x).CountersBalance := by
  unfold MDP2FIC.process
  split
  · exact h
  · exact h
  · rename_i nav rest _
    have hs : MDP2FIC.CountersBalance { s with mdpInput := rest } := h
    have hstep := countersBalance_process_nav x _ nav hs
    cases hp : MDP2FIC.process_nav x { s with mdpInput := rest } nav with
    | returned s1 => rw [hp] at hstep; exact hstep
    | raised s1 => rw [hp] at hstep; exact hstep
  · exact h
  · exact h

theorem countersBalance_steps (x : Collaborators) (n : Nat) (s : MDP2FIC)
    (h : s.CountersBalance) : (MDP2FIC.steps x n s).CountersBalance := by
  induction n generalizing s with
  | zero => exact h
  | succ n ih => exact ih _ (countersBalance_process x s h)

theorem countersBalance_feed (x : Collaborators) (navs : List MDPNavSubframe) (s : MDP2FIC)
    (h : s.CountersBalance) : (s.feed x navs).CountersBalance := by
  induction navs generalizing s with
  | nil => exact h
  | cons nav rest ih =>
    have hstep := countersBalance_process_nav x s nav h
    unfold MDP2FIC.feed
    cases hp : s.process_nav x nav with
    | returned s1 => rw [hp] at hstep; exact ih s1 hstep
    | raised s1 => rw [hp] at hstep; exact hstep

end MDP2FIC

/-- C11: in every state reached from the initial state by any number of driver steps
on any input, and after feeding any sequence of subframes, `numSubframesCollected` equals
`paritySuccessCount + parityFailCount`.  A subframe that reaches the parity check (L1 C/A,
identifier at most 3) raises `numSubframesCollected` by one and exactly one of the two
parity counters by one, the success counter when the check passes and the failure
counter when it fails; a subframe that is not L1 C/A changes none of the three
counters. -/
theorem parity_counters_balance (x : Collaborators) (mdp : List ReadEvent) (log : Bool)
    (n : Nat) (navs : List MDPNavSubframe) (s : MDP2FIC) (nav : MDPNavSubframe) :
    (MDP2FIC.steps x n ( MDP2FIC.initialize x mdp log)).numSubframesCollected =
        (MDP2FIC.steps x n ( MDP2FIC.initialize x mdp log)).paritySuccessCount +
          (MDP2FIC.steps x n ( MDP2FIC.initialize x mdp log)).parityFailCount ∧
      (( MDP2FIC.initialize x mdp log).feed x navs).numSubframesCollected =
        (( MDP2FIC.initialize x mdp log).feed x navs).paritySuccessCount +
          (( MDP2FIC.initialize x mdp log).feed x navs).parityFailCount ∧
      (nav.range = RangeCode.rcCA → nav.carrier = CarrierCode.ccL1 → nav.sfid ≤ 3 →
        (s.process_nav x nav).state.numSubframesCollected = s.numSubframesCollected + 1 ∧
        (s.process_nav x nav).state.paritySuccessCount =
          s.paritySuccessCount + (if nav.parity = true then 1 else 0) ∧
        (s.process_nav x nav).state.parityFailCount =
          s.parityFailCount + (if nav.parity = true then 0 else 1)) ∧
      (nav.range ≠ RangeCode.rcCA ∨ nav.carrier ≠ CarrierCode.ccL1 →
        (s.process_nav x nav).state.numSubframesCollected = s.numSubframesCollected ∧
        (s.process_nav x nav).state.paritySuccessCount = s.paritySuccessCount ∧
        (s.process_nav x nav).state.parityFailCount = s.parityFailCount) := by
  have hinit : ( MDP2FIC.initialize x mdp log).CountersBalance := by
    unfold MDP2FIC.CountersBalance MDP2FIC.initialize
    rfl
  refine ⟨MDP2FIC.countersBalance_steps x n _ hinit,
    MDP2FIC.countersBalance_feed x navs _ hinit, ?_, ?_⟩
  · intro hr hc hle
    have h3 : ¬ nav.sfid > 3 := not_lt.mpr hle
    have e : s.process_nav x nav = s.processSubframes1to3 x nav := by
      unfold MDP2FIC.process_nav
      rw [if_neg h3]
    obtain ⟨c1, c2, c3⟩ := MDP2FIC.counters_1to3 x s nav
    rw [e, c1, c2, c3]
    cases hv : nav.parity <;> simp [hr, hc]
  · intro hsig
    have hno : ¬ (nav.range = RangeCode.rcCA ∧ nav.carrier = CarrierCode.ccL1) := by
      rintro ⟨h1, h2⟩
      rcases hsig with h | h
      · exact h h1
      · exact h h2
    have hno2 : ¬ (nav.range = RangeCode.rcCA ∧ nav.carrier = CarrierCode.ccL1 ∧
        nav.parity = true) := fun h => hno ⟨h.1, h.2.1⟩
    have hno3 : ¬ (nav.range = RangeCode.rcCA ∧ nav.carrier = CarrierCode.ccL1 ∧
        nav.parity = false) := fun h => hno ⟨h.1, h.2.1⟩
    by_cases h3 : nav.sfid > 3
    · have e : s.process_nav x nav = Outcome.returned (s.processSubframes4and5 x nav) := by
        unfold MDP2FIC.process_nav
        rw [if_pos h3]
      have f := MDP2FIC.processSubframes4and5_frame x s nav
      rw [e]
      exact ⟨f.2.2.2.1, f.2.2.2.2.1, f.2.2.2.2.2.1⟩
    · have e : s.process_nav x nav = s.processSubframes1to3 x nav := by
        unfold MDP2FIC.process_nav
        rw [if_neg h3]
      obtain ⟨c1, c2, c3⟩ := MDP2FIC.counters_1to3 x s nav
      rw [e, c1, c2, c3, if_neg hno, if_neg hno2, if_neg hno3]
      simp

/-- C11 at samples: a parity-failing L1 C/A subframe 2 in the initial state raises the
subframe count and the failure count to 1, and a subframe on another carrier leaves the
subframe count at 0. -/
theorem parity_counters_balance_witness :
    ((( MDP2FIC.initialize sampleCollab [] true).process_nav sampleCollab
        (sampleNav 2 6 false)).state.numSubframesCollected = 0 + 1 ∧
      (( MDP2FIC.initialize sampleCollab [] true).process_nav sampleCollab
        (sampleNav 2 6 false)).state.paritySuccessCount = 0 + 0 ∧
      (( MDP2FIC.initialize sampleCollab [] true).process_nav sampleCollab
        (sampleNav 2 6 false)).state.parityFailCount = 0 + 1) ∧
    (( MDP2FIC.initialize sampleCollab [] true).process_nav sampleCollab
        { sampleNav 2 6 true with carrier := CarrierCode.ccL2 }).state.numSubframesCollected =
      0 :=
  ⟨(parity_counters_balance sampleCollab [] true 0 [] ( MDP2FIC.initialize sampleCollab [] true)
      (sampleNav 2 6 false)).2.2.1 rfl rfl (by decide),
   ((parity_counters_balance sampleCollab [] true 0 [] ( MDP2FIC.initialize sampleCollab [] true)
      { sampleNav 2 6 true with carrier := CarrierCode.ccL2 }).2.2.2
        (Or.inr (by decide))).1⟩
